import Mathlib

/-!
# ematrm: lexer and virtual machine

A shallow embedding of `src/ematrm.cc` (the lexer `lex`, the traversal primitive
`for_each_reg` and the executor `exec_cycle`) together with theorems about it.

Conventions of the embedding

* `std::string` is a `List Char`; one `Char` stands for one byte of the source text.
* `uint16_t mask` is a `Nat` that every write reduces modulo `2 ^ 16`.
* `long` is an `Int` that every arithmetic write reduces to the two's complement range
  of 64 bits (`to_long`).
* `size_t instr_ptr` is a `Nat`; it never exceeds `code.size()`, which is far below `2 ^ 63`,
  so the conversions between `size_t` and `long` of an instruction index keep its value.
* `std::stack` is a `List` whose head is the top.
* `std::cout` and `std::cin` are the first two fields of `streams`; the third records
  that the process was killed by the signal `SIGFPE`, which the division of `LONG_MIN` by
  `-1` raises on x86-64.
* Plain `char` is a signed type of 8 bits, as on x86-64.
-/

namespace Ematrm

/-! ## Data model -/

/-! The enum `token_type`: each enumerator is the natural number that is its value, so the
range tests and the arithmetic the code does on token types read as in the source. -/

@[simp] def TT_LIT_STR : Nat := 0
@[simp] def TT_LIT_CH : Nat := 1
@[simp] def TT_LIT_NUM : Nat := 2
@[simp] def TT_TOGGLE_BIT_0 : Nat := 3
@[simp] def TT_TOGGLE_BIT_1 : Nat := 4
@[simp] def TT_TOGGLE_BIT_2 : Nat := 5
@[simp] def TT_TOGGLE_BIT_3 : Nat := 6
@[simp] def TT_TOGGLE_BIT_4 : Nat := 7
@[simp] def TT_TOGGLE_BIT_5 : Nat := 8
@[simp] def TT_TOGGLE_BIT_6 : Nat := 9
@[simp] def TT_TOGGLE_BIT_7 : Nat := 10
@[simp] def TT_TOGGLE_BIT_8 : Nat := 11
@[simp] def TT_TOGGLE_BIT_9 : Nat := 12
@[simp] def TT_TOGGLE_BIT_A : Nat := 13
@[simp] def TT_TOGGLE_BIT_B : Nat := 14
@[simp] def TT_TOGGLE_BIT_C : Nat := 15
@[simp] def TT_TOGGLE_BIT_D : Nat := 16
@[simp] def TT_TOGGLE_BIT_E : Nat := 17
@[simp] def TT_TOGGLE_BIT_F : Nat := 18
@[simp] def TT_TOGGLE_COL_0 : Nat := 19
@[simp] def TT_TOGGLE_COL_1 : Nat := 20
@[simp] def TT_TOGGLE_COL_2 : Nat := 21
@[simp] def TT_TOGGLE_COL_3 : Nat := 22
@[simp] def TT_TOGGLE_ROW_0 : Nat := 23
@[simp] def TT_TOGGLE_ROW_1 : Nat := 24
@[simp] def TT_TOGGLE_ROW_2 : Nat := 25
@[simp] def TT_TOGGLE_ROW_3 : Nat := 26
@[simp] def TT_TOGGLE_MAT : Nat := 27
@[simp] def TT_OP_MODE_COL : Nat := 28
@[simp] def TT_OP_MODE_ROW : Nat := 29
@[simp] def TT_OP_ORDER_REV : Nat := 30
@[simp] def TT_POP_ATOM : Nat := 31
@[simp] def TT_PUSH_ATOM : Nat := 32
@[simp] def TT_WRITE_STDOUT : Nat := 33
@[simp] def TT_WRITE_STDOUT_NEWLINE : Nat := 34
@[simp] def TT_READ_STDIN : Nat := 35
@[simp] def TT_STR_TO_INT : Nat := 36
@[simp] def TT_INT_TO_STR : Nat := 37
@[simp] def TT_ADD : Nat := 38
@[simp] def TT_SUB : Nat := 39
@[simp] def TT_MUL : Nat := 40
@[simp] def TT_DIV : Nat := 41
@[simp] def TT_NUM_ADD : Nat := 42
@[simp] def TT_NUM_SUB : Nat := 43
@[simp] def TT_NUM_MUL : Nat := 44
@[simp] def TT_NUM_DIV : Nat := 45
@[simp] def TT_IND_ADD : Nat := 46
@[simp] def TT_IND_SUB : Nat := 47
@[simp] def TT_IND_MUL : Nat := 48
@[simp] def TT_IND_DIV : Nat := 49
@[simp] def TT_POP_JMP : Nat := 50
@[simp] def TT_POP_JMP_COND : Nat := 51
@[simp] def TT_PUSH_JMP : Nat := 52
@[simp] def TT_SAVE_JMP : Nat := 53
@[simp] def TT_EQUAL : Nat := 54
@[simp] def TT_GREQUAL : Nat := 55
@[simp] def TT_GREATER : Nat := 56
@[simp] def TT_LESS : Nat := 57
@[simp] def TT_LEQUAL : Nat := 58
@[simp] def TT_AND : Nat := 59
@[simp] def TT_OR : Nat := 60
@[simp] def TT_NOT : Nat := 61

/-- The enum `op_mode` (`OM_ROW = 0`). -/
inductive op_mode where
  | OM_ROW
  | OM_COL
  deriving DecidableEq, Repr

/-- The enum `reg_type`; `RT_STR` is the enumerator with value 0. -/
inductive reg_type where
  | RT_STR
  | RT_INT
  deriving DecidableEq, Repr

/-- The struct `token`. -/
structure token where
  type : Nat
  data : List Char
  line : Int
  deriving DecidableEq, Repr

/-- The size of the text buffer of a register (`#define REG_STR_SIZE 38`). -/
def REG_STR_SIZE : Nat := 38

/-- The struct `reg`: a tag and a union. The code writes the tag together with the member
it names, so the union is embedded as a sum: `str s` is a register tagged `RT_STR` whose
buffer holds the bytes `s` (those before the first NUL, or all `REG_STR_SIZE` bytes when
the buffer has no NUL), `num n` is a register tagged `RT_INT` holding the `long` `n`. -/
inductive reg where
  | str (s : List Char)
  | num (n : Int)
  deriving DecidableEq, Repr

/-- The tag of a register. -/
def reg.type : reg → reg_type
  | .str _ => reg_type.RT_STR
  | .num _ => reg_type.RT_INT

/-- The struct `machine`. -/
structure machine where
  regs : Fin 16 → reg
  mask : Nat
  instr_ptr : Nat
  mode : op_mode
  rev : Bool
  atoms : List token
  jumps : List Int

/-- The process as its environment sees it: what was written to `std::cout`, the
whitespace-delimited words still to be read from `std::cin`, and whether the process has
been killed by the signal `SIGFPE`. -/
structure streams where
  cout : List Char
  cin : List (List Char)
  sigfpe : Bool
  deriving DecidableEq, Repr

/-! ## Machine integers and C library functions -/

/-- Conversion of an integer to `long` (64 bits, two's complement). -/
def to_long (x : Int) : Int := (x + 2 ^ 63) % 2 ^ 64 - 2 ^ 63

/-- Conversion of an integer to `unsigned long` / `size_t` (64 bits). -/
def to_ulong (x : Int) : Int := x % 2 ^ 64

/-- Conversion of an integer to `int` (32 bits, two's complement). -/
def to_int (x : Int) : Int := (x + 2 ^ 31) % 2 ^ 32 - 2 ^ 31

/-- The NUL character that ends a C string. -/
def NUL : Char := Char.ofNat 0

/-- The view `std::string::c_str` gives to a C function: the bytes before the first NUL. -/
def c_str (s : List Char) : List Char := s.takeWhile (fun c => c != NUL)

/-- The C function `isspace` in the "C" locale. -/
def isspace (c : Char) : Bool :=
  c.toNat = 32 || (9 ≤ c.toNat && c.toNat ≤ 13)

/-- The C function `isdigit`. -/
def isdigit (c : Char) : Bool :=
  48 ≤ c.toNat && c.toNat ≤ 57

/-- The C function `strtol` in base 10 without end pointer: leading white space, an
optional sign, then the longest run of digits; the value is clamped to the range of
`long`. -/
def strtol (s : List Char) : Int :=
  let t := s.dropWhile isspace
  let neg : Bool := t.head? = some '-'
  let u := if t.head? = some '-' ∨ t.head? = some '+' then t.tail else t
  let v : Nat := (u.takeWhile isdigit).foldl (fun acc c => acc * 10 + (c.toNat - 48)) 0
  let x : Int := if neg then - (v : Int) else (v : Int)
  if x < - 2 ^ 63 then - 2 ^ 63 else if 2 ^ 63 - 1 < x then 2 ^ 63 - 1 else x

/-- The C function `atoi` applied to `s.c_str()`: `(int) strtol(s, NULL, 10)`. -/
def atoi (s : List Char) : Int := to_int (strtol (c_str s))

/-- The function `std::to_string(long)`, also the text `std::cout << long` prints. -/
def to_string (n : Int) : List Char :=
  if n < 0 then '-' :: Nat.toDigits 10 n.natAbs else Nat.toDigits 10 n.toNat

/-- The conversion of a `char` to `long`, as in `reg.data.num = tok.data[0]`. Plain `char`
is a signed type of 8 bits on x86-64, so a byte below `0x80` converts to its code and a
byte `b` from `0x80` on to the negative value `b - 256`. -/
def char_to_long (c : Char) : Int :=
  if c.toNat % 2 ^ 8 < 2 ^ 7 then ((c.toNat % 2 ^ 8 : Nat) : Int)
  else ((c.toNat % 2 ^ 8 : Nat) : Int) - 2 ^ 8

/-- The call `strncpy(reg.data.str, s.c_str(), REG_STR_SIZE)`: the text the buffer holds
afterwards, the first `REG_STR_SIZE` bytes of the C string. -/
def strncpy (s : List Char) : List Char := (c_str s).take REG_STR_SIZE

/-- The text read back from the buffer of a text register by `strcpy(buf, reg.data.str)`
or `strncpy(buf, reg.data.str, REG_STR_SIZE)` into the zeroed `buf`: the stored bytes. -/
def reg_text (s : List Char) : List Char := s

/-! ## The traversal primitive -/

/-- The call `fn(machine.regs[ind], ind)`. The callback `fn` takes the register, the
index and the variables it captured by reference, and gives back the register and those
variables as it leaves them. -/
def call_fn {κ : Type} (fn : reg → Nat → κ → reg × κ) (ind : Nat)
    (st : (Fin 16 → reg) × κ) : (Fin 16 → reg) × κ :=
  let r := fn (st.1 (Fin.ofNat ind)) ind st.2
  (Function.update st.1 (Fin.ofNat ind) r.1, r.2)

/-- The lambda `maybe_apply` of `for_each_reg`: when bit `ind` of the mask is set, call
`fn` on register `ind` with the index `ind`. -/
def maybe_apply {κ : Type} (mask : Nat) (fn : reg → Nat → κ → reg × κ) (ind : Nat)
    (st : (Fin 16 → reg) × κ) : (Fin 16 → reg) × κ :=
  if mask &&& (1 <<< ind) ≠ 0 then call_fn fn ind st else st

/-- The function `for_each_reg`: the four loops, one for each combination of `rev` and
`mode`. It gives back the registers and the captured variables after the last call. -/
def for_each_reg {κ : Type} (m : machine) (fn : reg → Nat → κ → reg × κ) (k : κ) :
    (Fin 16 → reg) × κ :=
  let ma := maybe_apply m.mask fn
  if !m.rev then
    if m.mode = op_mode.OM_ROW then
      (List.range 4).foldl (fun st i =>
        let st := ma (4 * i) st
        let st := ma (4 * i + 1) st
        let st := ma (4 * i + 2) st
        ma (4 * i + 3) st) (m.regs, k)
    else
      (List.range 4).foldl (fun st i =>
        let st := ma i st
        let st := ma (i + 4) st
        let st := ma (i + 8) st
        ma (i + 12) st) (m.regs, k)
  else
    if m.mode = op_mode.OM_ROW then
      (List.range 4).foldl (fun st i =>
        let st := ma (4 * i + 3) st
        let st := ma (4 * i + 2) st
        let st := ma (4 * i + 1) st
        ma (4 * i) st) (m.regs, k)
    else
      (List.range 4).foldl (fun st i =>
        let st := ma (i + 12) st
        let st := ma (i + 8) st
        let st := ma (i + 4) st
        ma i st) (m.regs, k)

/-! ## The lexer -/

/-- One call of `prog_err`: the line and the message printed to `std::cerr`. -/
abbrev diag := Nat × String

/-- The element `src[i]` of a `std::string`; at `i = src.length()` it is the NUL. -/
def char_at (src : List Char) (i : Nat) : Char := src.getD i NUL

/-- The characters with a meaning of their own in the lexer. -/
def NEWLINE : Char := Char.ofNat 10
def DQUOTE : Char := Char.ofNat 34
def SQUOTE : Char := Char.ofNat 39
def BACKTICK : Char := Char.ofNat 96

/-- The `while` loop of `lex_string` over the text still to read: it gives back the index
and line where it stops and the collected payload. -/
def lex_string_loop : List Char → Nat → Nat → List Char → Nat × Nat × List Char
  | [], i, line, data => (i, line, data)
  | c :: cs, i, line, data =>
    if c = NEWLINE then lex_string_loop cs (i + 1) (line + 1) (data ++ [c])
    else if c = DQUOTE then (i, line, data)
    else lex_string_loop cs (i + 1) line (data ++ [c])

/-- The function `lex_string`: the token (or `nullopt`), the new values of the reference
parameters `i` and `line`, and the calls of `prog_err`. -/
def lex_string (src : List Char) (i line : Nat) : Option token × Nat × Nat × List diag :=
  let line_start := line
  let r := lex_string_loop (src.drop i) i line []
  if r.1 = src.length then
    (none, r.1, r.2.1, [(line_start, "unterminated string!")])
  else
    (some { type := TT_LIT_STR, data := r.2.2, line := line_start }, r.1, r.2.1, [])

/-- The function `lex_char`. -/
def lex_char (src : List Char) (i line : Nat) : Option token × Nat × Nat × List diag :=
  if i = src.length then
    (none, i, line, [(line, "non-existent character!")])
  else
    let tok : token := { type := TT_LIT_CH, data := [char_at src i], line := line }
    if char_at src i = NEWLINE then (some tok, i, line + 1, []) else (some tok, i, line, [])

/-- The `while` loop of `lex_num` over the text still to read: `none` at a character that
is neither `$` nor a digit, else the index where it stops and the collected payload. -/
def lex_num_loop : List Char → Nat → List Char → Option (Nat × List Char)
  | [], i, data => some (i, data)
  | c :: cs, i, data =>
    if c = '$' then some (i, data)
    else if !isdigit c then none
    else lex_num_loop cs (i + 1) (data ++ [c])

/-- The function `lex_num`; `i` is not read again after a failure. -/
def lex_num (src : List Char) (i line : Nat) : Option token × Nat × Nat × List diag :=
  match lex_num_loop (src.drop i) i [] with
  | none => (none, i, line, [(line, "non-decimal-digit in number!")])
  | some r =>
    if r.1 = src.length then
      (none, r.1, line, [(line, "unterminated number!")])
    else
      (some { type := TT_LIT_NUM, data := r.2, line := line }, r.1, line, [])

/-- The outcome of one pass through the body of the `for` loop of `lex`: `next` carries
the values of `i`, `line`, `toks` and the calls of `prog_err` at the end of the body
(before the `++i` of the loop), `fail` is `return std::nullopt`. -/
inductive lex_step_result where
  | next (i line : Nat) (toks : List token) (cerr : List diag)
  | fail (cerr : List diag)

/-- The second character of a two-character operator: the inner `switch` of the cases
`%`, `[`, `j` and `?`. -/
def lex_second (c : Char) (table : List (Char × Nat)) : Option Nat :=
  (table.find? (fun p => p.1 = c)).map (fun p => p.2)

/-- The single-character operators of the outer `switch` of `lex`. -/
def lex_single : List (Char × Nat) :=
  [('C', TT_OP_MODE_COL), ('R', TT_OP_MODE_ROW), ('~', TT_OP_ORDER_REV),
   ('>', TT_POP_ATOM), ('<', TT_PUSH_ATOM), ('w', TT_WRITE_STDOUT),
   ('W', TT_WRITE_STDOUT_NEWLINE), ('r', TT_READ_STDIN), ('#', TT_STR_TO_INT),
   (',', TT_INT_TO_STR), ('+', TT_ADD), ('-', TT_SUB), ('*', TT_MUL), ('/', TT_DIV),
   ('.', TT_SAVE_JMP), ('=', TT_EQUAL), ('F', TT_GREQUAL), ('G', TT_GREATER),
   ('L', TT_LESS), ('M', TT_LEQUAL), ('&', TT_AND), ('!', TT_NOT)]

/-- The body of the `for` loop of `lex` at index `i`. The parameter `garbage` is the
value of the uninitialised local `type` that the case `?` leaves untouched when `?` is
the last character of the source. -/
def lex_step (src : List Char) (garbage : Nat) (i line : Nat) (toks : List token)
    (cerr : List diag) : lex_step_result :=
  let c := char_at src i
  -- skip whitespace.
  if c = NEWLINE then .next i (line + 1) toks cerr
  else if isspace c then .next i line toks cerr
  -- handle literals.
  else if c = DQUOTE then
    match lex_string src (i + 1) line with
    | (none, _, _, e) => .fail (cerr ++ e)
    | (some tok, i, line, e) => .next i line (toks ++ [tok]) (cerr ++ e)
  else if c = SQUOTE then
    match lex_char src (i + 1) line with
    | (none, _, _, e) => .fail (cerr ++ e)
    | (some tok, i, line, e) => .next i line (toks ++ [tok]) (cerr ++ e)
  else if c = '$' then
    match lex_num src (i + 1) line with
    | (none, _, _, e) => .fail (cerr ++ e)
    | (some tok, i, line, e) => .next i line (toks ++ [tok]) (cerr ++ e)
  -- handle register mask operations.
  else if '0' ≤ c ∧ c ≤ '9' then
    .next i line
      (toks ++ [{ type := TT_TOGGLE_BIT_0 + c.toNat - ('0').toNat, data := [], line := line }])
      cerr
  else if 'a' ≤ c ∧ c ≤ 'f' then
    .next i line
      (toks ++ [{ type := TT_TOGGLE_BIT_A + c.toNat - ('a').toNat, data := [], line := line }])
      cerr
  else if c = '|' then
    if i = src.length - 1 then
      .fail (cerr ++ [(line, "expected column number after '|'!")])
    else
      let i := i + 1
      let c := char_at src i
      if c < '0' ∨ c > '3' then .fail (cerr ++ [(line, "invalid column number!")])
      else
        .next i line
          (toks ++ [{ type := TT_TOGGLE_COL_0 + c.toNat - ('0').toNat, data := [],
                      line := line }])
          cerr
  else if c = BACKTICK then
    if i = src.length - 1 then
      .fail (cerr ++ [(line, "expected row number after '\x60'!")])
    else
      let i := i + 1
      let c := char_at src i
      if c < '0' ∨ c > '3' then .fail (cerr ++ [(line, "invalid row number!")])
      else
        .next i line
          (toks ++ [{ type := TT_TOGGLE_ROW_0 + c.toNat - ('0').toNat, data := [],
                      line := line }])
          cerr
  else if c = 'A' then
    .next i line (toks ++ [{ type := TT_TOGGLE_MAT, data := [], line := line }]) cerr
  else if c = '%' then
    let i := i + 1
    if i = src.length then
      .fail (cerr ++ [(line, "expected register number operator after '%'!")])
    else
      match lex_second (char_at src i)
          [('+', TT_NUM_ADD), ('-', TT_NUM_SUB), ('*', TT_NUM_MUL), ('/', TT_NUM_DIV)] with
      | some type => .next i line (toks ++ [{ type := type, data := [], line := line }]) cerr
      | none => .fail (cerr ++ [(line, "invalid register number operator!")])
  else if c = '[' then
    let i := i + 1
    if i = src.length then
      .fail (cerr ++ [(line, "expected register index operator after '['!")])
    else
      match lex_second (char_at src i)
          [('+', TT_IND_ADD), ('-', TT_IND_SUB), ('*', TT_IND_MUL), ('/', TT_IND_DIV)] with
      | some type => .next i line (toks ++ [{ type := type, data := [], line := line }]) cerr
      | none => .fail (cerr ++ [(line, "invalid register index operator!")])
  else if c = 'j' then
    let i := i + 1
    if i = src.length then
      .fail (cerr ++ [(line, "expected jump stack operator after 'j'!")])
    else
      match lex_second (char_at src i)
          [('>', TT_POP_JMP), ('?', TT_POP_JMP_COND), ('<', TT_PUSH_JMP)] with
      | some type => .next i line (toks ++ [{ type := type, data := [], line := line }]) cerr
      | none => .fail (cerr ++ [(line, "invalid jump stack operator!")])
  else if c = '?' then
    let i := i + 1
    if i = src.length then
      -- `prog_err` followed by `break`, not by `return`: the token is still pushed.
      .next i line (toks ++ [{ type := garbage, data := [], line := line }])
        (cerr ++ [(line, "expected '|' after '?'!")])
    else
      match lex_second (char_at src i) [('|', TT_OR)] with
      | some type => .next i line (toks ++ [{ type := type, data := [], line := line }]) cerr
      | none => .fail (cerr ++ [(line, "invalid boolean operator!")])
  else
    match lex_second c lex_single with
    | some type => .next i line (toks ++ [{ type := type, data := [], line := line }]) cerr
    | none => .fail (cerr ++ [(line, "unknown character!")])

/-- What `lex` leaves behind: the calls of `prog_err` and the returned
`std::optional<std::vector<token>>`. -/
structure lex_out where
  cerr : List diag
  toks : Option (List token)
  deriving DecidableEq, Repr

/-- The `for` loop of `lex` from index `i`, for at most `fuel` passes through its body;
`none` when the fuel does not suffice. -/
def lex_loop (src : List Char) (garbage : Nat) :
    Nat → Nat → Nat → List token → List diag → Option lex_out
  | 0, i, _, toks, cerr =>
    if i < src.length then none else some { cerr := cerr, toks := some toks }
  | fuel + 1, i, line, toks, cerr =>
    if i < src.length then
      match lex_step src garbage i line toks cerr with
      | .next i line toks cerr => lex_loop src garbage fuel (i + 1) line toks cerr
      | .fail cerr => some { cerr := cerr, toks := none }
    else some { cerr := cerr, toks := some toks }

/-- The function `lex`. Every pass through the loop body advances `i`, so
`src.length` passes suffice. -/
def lex (src : List Char) (garbage : Nat) : Option lex_out :=
  lex_loop src garbage src.length 0 1 [] []

/-! ## The executor -/

/-- The callbacks of `TT_POP_ATOM`: a string atom makes the register a text register
holding the copied text, a character atom an integer register holding the first `char` of
the payload converted to `long`, any other atom an integer register holding `atoi` of the
payload. -/
def pop_str (tok : token) (_r : reg) (_num : Nat) (k : Unit) : reg × Unit :=
  (reg.str (strncpy tok.data), k)

def pop_ch (tok : token) (_r : reg) (_num : Nat) (k : Unit) : reg × Unit :=
  (reg.num (char_to_long (tok.data.headD NUL)), k)

def pop_num (tok : token) (_r : reg) (_num : Nat) (k : Unit) : reg × Unit :=
  (reg.num (atoi tok.data), k)

/-- The callback of `TT_PUSH_ATOM`; the captured variable is `machine.atoms`. -/
def push (r : reg) (_num : Nat) (atoms : List token) : reg × List token :=
  match r with
  | .num n => (r, { type := TT_LIT_NUM, data := to_string n, line := -1 } :: atoms)
  | .str s => (r, { type := TT_LIT_STR, data := reg_text s, line := -1 } :: atoms)

/-- The callback of `TT_WRITE_STDOUT`; the captured variable is `std::cout`. -/
def write (r : reg) (_num : Nat) (cout : List Char) : reg × List Char :=
  match r with
  | .num n => (r, cout ++ to_string n)
  | .str s => (r, cout ++ reg_text s)

/-- The callback of `TT_WRITE_STDOUT_NEWLINE`. -/
def write_newline (r : reg) (_num : Nat) (cout : List Char) : reg × List Char :=
  match r with
  | .num n => (r, cout ++ to_string n ++ [Char.ofNat 10])
  | .str s => (r, cout ++ reg_text s ++ [Char.ofNat 10])

/-- The callback of `TT_READ_STDIN`. -/
def write_input (input : List Char) (_r : reg) (_num : Nat) (k : Unit) : reg × Unit :=
  (reg.str (strncpy input), k)

/-- The callback of `TT_STR_TO_INT`. -/
def str_to_int (r : reg) (_num : Nat) (k : Unit) : reg × Unit :=
  match r with
  | .num _ => (r, k)
  | .str s => (reg.num (atoi (reg_text s)), k)

/-- The callback of `TT_INT_TO_STR`. -/
def int_to_str (r : reg) (_num : Nat) (k : Unit) : reg × Unit :=
  match r with
  | .str _ => (r, k)
  | .num n => (reg.str (strncpy (to_string n)), k)

/-- The callbacks of `TT_ADD`, `TT_SUB`, `TT_MUL`: `long` arithmetic with the scalar
`val`. -/
def add (val : Int) (r : reg) (_num : Nat) (k : Unit) : reg × Unit :=
  match r with
  | .num n => (reg.num (to_long (n + val)), k)
  | .str _ => (r, k)

def sub (val : Int) (r : reg) (_num : Nat) (k : Unit) : reg × Unit :=
  match r with
  | .num n => (reg.num (to_long (n - val)), k)
  | .str _ => (r, k)

def mul (val : Int) (r : reg) (_num : Nat) (k : Unit) : reg × Unit :=
  match r with
  | .num n => (reg.num (to_long (n * val)), k)
  | .str _ => (r, k)

/-- The callback of `TT_DIV`, `reg.data.num /= val` with a scalar `val` that is not zero;
the quotient is truncated towards zero. The quotient of `LONG_MIN` by `-1` is not a
`long`: the division instruction of x86-64 raises `SIGFPE` there and the process is
killed. The captured variable records that; once the process is killed no further call
takes place, so the remaining registers stay as they are. -/
def div (val : Int) (r : reg) (_num : Nat) (killed : Bool) : reg × Bool :=
  match r with
  | .num n =>
    if killed then (r, killed)
    else if n = - 2 ^ 63 ∧ val = -1 then (r, true)
    else (reg.num (to_long (Int.tdiv n val)), killed)
  | .str _ => (r, killed)

/-- The callbacks of `TT_NUM_ADD`, `TT_NUM_SUB`, `TT_NUM_MUL`, `TT_NUM_DIV`: the operand is
the index `num`, a `size_t`, so the operation is done on `unsigned long` and the result
converted back to `long`. -/
def num_add (r : reg) (num : Nat) (k : Unit) : reg × Unit :=
  match r with
  | .num n => (reg.num (to_long (to_ulong n + num)), k)
  | .str _ => (r, k)

def num_sub (r : reg) (num : Nat) (k : Unit) : reg × Unit :=
  match r with
  | .num n => (reg.num (to_long (to_ulong n - num)), k)
  | .str _ => (r, k)

def num_mul (r : reg) (num : Nat) (k : Unit) : reg × Unit :=
  match r with
  | .num n => (reg.num (to_long (to_ulong n * num)), k)
  | .str _ => (r, k)

def num_div (r : reg) (num : Nat) (k : Unit) : reg × Unit :=
  match r with
  | .num n => if num > 0 then (reg.num (to_long (to_ulong n / num)), k) else (r, k)
  | .str _ => (r, k)

/-- The callbacks of `TT_IND_ADD`, `TT_IND_SUB`, `TT_IND_MUL`, `TT_IND_DIV`: the operand is
the captured counter `ind`, a `size_t` incremented at every call. -/
def ind_add (r : reg) (_num : Nat) (ind : Nat) : reg × Nat :=
  match r with
  | .num n => (reg.num (to_long (to_ulong n + ind)), ind + 1)
  | .str _ => (r, ind + 1)

def ind_sub (r : reg) (_num : Nat) (ind : Nat) : reg × Nat :=
  match r with
  | .num n => (reg.num (to_long (to_ulong n - ind)), ind + 1)
  | .str _ => (r, ind + 1)

def ind_mul (r : reg) (_num : Nat) (ind : Nat) : reg × Nat :=
  match r with
  | .num n => (reg.num (to_long (to_ulong n * ind)), ind + 1)
  | .str _ => (r, ind + 1)

def ind_div (r : reg) (_num : Nat) (ind : Nat) : reg × Nat :=
  match r with
  | .num n => if ind > 0 then (reg.num (to_long (to_ulong n / ind)), ind + 1) else (r, ind + 1)
  | .str _ => (r, ind + 1)

/-- The callback of `TT_PUSH_JMP`; the captured variable is `machine.jumps`. -/
def push_jmp (r : reg) (_num : Nat) (jumps : List Int) : reg × List Int :=
  match r with
  | .num n => (r, n :: jumps)
  | .str _ => (r, jumps)

/-- The callback of `TT_EQUAL`. -/
def equal (tok : token) (r : reg) (_num : Nat) (k : Unit) : reg × Unit :=
  match r with
  | .num n =>
    if tok.type = TT_LIT_NUM then (reg.num (if n = atoi tok.data then 1 else 0), k) else (r, k)
  | .str s =>
    if tok.type = TT_LIT_STR then
      (reg.num (if reg_text s = c_str tok.data then 1 else 0), k)
    else (r, k)

/-- The callbacks of `TT_GREQUAL`, `TT_GREATER`, `TT_LESS`, `TT_LEQUAL`. -/
def grequal (val : Int) (r : reg) (_num : Nat) (k : Unit) : reg × Unit :=
  match r with
  | .num n => (reg.num (if n ≥ val then 1 else 0), k)
  | .str _ => (r, k)

def greater (val : Int) (r : reg) (_num : Nat) (k : Unit) : reg × Unit :=
  match r with
  | .num n => (reg.num (if n > val then 1 else 0), k)
  | .str _ => (r, k)

def less (val : Int) (r : reg) (_num : Nat) (k : Unit) : reg × Unit :=
  match r with
  | .num n => (reg.num (if n < val then 1 else 0), k)
  | .str _ => (r, k)

def lequal (val : Int) (r : reg) (_num : Nat) (k : Unit) : reg × Unit :=
  match r with
  | .num n => (reg.num (if n ≤ val then 1 else 0), k)
  | .str _ => (r, k)

/-- The callbacks of `TT_AND` and `TT_OR`; the captured variable is the flag. -/
def and_ (r : reg) (_num : Nat) (all_set : Bool) : reg × Bool :=
  match r with
  | .num n => if n = 0 then (r, false) else (r, all_set)
  | .str _ => (r, all_set)

def or_ (r : reg) (_num : Nat) (any_set : Bool) : reg × Bool :=
  match r with
  | .num n => if n ≠ 0 then (r, true) else (r, any_set)
  | .str _ => (r, any_set)

/-- The callback of `TT_NOT`. -/
def not_ (r : reg) (_num : Nat) (k : Unit) : reg × Unit :=
  match r with
  | .num n => (reg.num (if n = 0 then 1 else 0), k)
  | .str _ => (r, k)

/-- The body shared by the instructions that pop one atom, parse it with `atoi` and run
a callback built from the scalar (`TT_ADD`, `TT_SUB`, `TT_MUL`, the comparisons): nothing
happens on an empty atom stack. -/
def with_scalar (m : machine) (cb : Int → reg → Nat → Unit → reg × Unit) : machine :=
  match m.atoms with
  | [] => m
  | top :: rest =>
    let val := atoi top.data
    let m := { m with atoms := rest }
    { m with regs := (for_each_reg m (cb val) ()).1 }

/-- The function `exec_cycle`: fetch `code[instr_ptr]`, advance the pointer, execute.
The result is `none` when the fetch is out of bounds, which the run loop of `main`
excludes. A division that kills the process gives the state at that moment, with
`sigfpe` set in the streams. -/
def exec_cycle (m0 : machine) (io : streams) (code : List token) :
    Option (machine × streams) :=
  match code[m0.instr_ptr]? with
  | none => none
  | some tok =>
    let m := { m0 with instr_ptr := m0.instr_ptr + 1 }
    if TT_TOGGLE_BIT_0 ≤ tok.type ∧ tok.type ≤ TT_TOGGLE_BIT_F then
      some ({ m with mask := (m.mask ^^^ (1 <<< (tok.type - TT_TOGGLE_BIT_0))) % 2 ^ 16 }, io)
    else if TT_TOGGLE_ROW_0 ≤ tok.type ∧ tok.type ≤ TT_TOGGLE_ROW_3 then
      some ({ m with
        mask := (m.mask ^^^ (0xf <<< (4 * (tok.type - TT_TOGGLE_ROW_0)))) % 2 ^ 16 }, io)
    else if TT_TOGGLE_COL_0 ≤ tok.type ∧ tok.type ≤ TT_TOGGLE_COL_3 then
      some ({ m with mask := (m.mask ^^^ (0x1111 <<< (tok.type - TT_TOGGLE_COL_0))) % 2 ^ 16 }, io)
    else if tok.type = TT_TOGGLE_MAT then
      some ({ m with mask := (m.mask ^^^ 0xffff) % 2 ^ 16 }, io)
    else if tok.type = TT_LIT_STR ∨ tok.type = TT_LIT_CH ∨ tok.type = TT_LIT_NUM then
      some ({ m with atoms := tok :: m.atoms }, io)
    else if tok.type = TT_OP_MODE_COL then
      some ({ m with mode := op_mode.OM_COL }, io)
    else if tok.type = TT_OP_MODE_ROW then
      some ({ m with mode := op_mode.OM_ROW }, io)
    else if tok.type = TT_OP_ORDER_REV then
      some ({ m with rev := !m.rev }, io)
    else if tok.type = TT_POP_ATOM then
      match m.atoms with
      | [] => some (m, io)
      | top :: rest =>
        let m := { m with atoms := rest }
        if top.type = TT_LIT_STR then
          some ({ m with regs := (for_each_reg m (pop_str top) ()).1 }, io)
        else if top.type = TT_LIT_CH then
          some ({ m with regs := (for_each_reg m (pop_ch top) ()).1 }, io)
        else
          some ({ m with regs := (for_each_reg m (pop_num top) ()).1 }, io)
    else if tok.type = TT_PUSH_ATOM then
      let r := for_each_reg m push m.atoms
      some ({ m with regs := r.1, atoms := r.2 }, io)
    else if tok.type = TT_WRITE_STDOUT then
      let r := for_each_reg m write io.cout
      some ({ m with regs := r.1 }, { io with cout := r.2 })
    else if tok.type = TT_WRITE_STDOUT_NEWLINE then
      let r := for_each_reg m write_newline io.cout
      some ({ m with regs := r.1 }, { io with cout := r.2 })
    else if tok.type = TT_READ_STDIN then
      let input := io.cin.headD []
      let io := { io with cout := io.cout ++ ['>', ':', ' '], cin := io.cin.tail }
      some ({ m with regs := (for_each_reg m (write_input input) ()).1 }, io)
    else if tok.type = TT_STR_TO_INT then
      some ({ m with regs := (for_each_reg m str_to_int ()).1 }, io)
    else if tok.type = TT_INT_TO_STR then
      some ({ m with regs := (for_each_reg m int_to_str ()).1 }, io)
    else if tok.type = TT_ADD then
      some (with_scalar m add, io)
    else if tok.type = TT_SUB then
      some (with_scalar m sub, io)
    else if tok.type = TT_MUL then
      some (with_scalar m mul, io)
    else if tok.type = TT_DIV then
      match m.atoms with
      | [] => some (m, io)
      | top :: rest =>
        let val := atoi top.data
        let m := { m with atoms := rest }
        if val = 0 then some (m, io)
        else
          let r := for_each_reg m (div val) false
          some ({ m with regs := r.1 }, { io with sigfpe := io.sigfpe || r.2 })
    else if tok.type = TT_NUM_ADD then
      some ({ m with regs := (for_each_reg m num_add ()).1 }, io)
    else if tok.type = TT_NUM_SUB then
      some ({ m with regs := (for_each_reg m num_sub ()).1 }, io)
    else if tok.type = TT_NUM_MUL then
      some ({ m with regs := (for_each_reg m num_mul ()).1 }, io)
    else if tok.type = TT_NUM_DIV then
      some ({ m with regs := (for_each_reg m num_div ()).1 }, io)
    else if tok.type = TT_IND_ADD then
      some ({ m with regs := (for_each_reg m ind_add 0).1 }, io)
    else if tok.type = TT_IND_SUB then
      some ({ m with regs := (for_each_reg m ind_sub 0).1 }, io)
    else if tok.type = TT_IND_MUL then
      some ({ m with regs := (for_each_reg m ind_mul 0).1 }, io)
    else if tok.type = TT_IND_DIV then
      some ({ m with regs := (for_each_reg m ind_div 0).1 }, io)
    else if tok.type = TT_POP_JMP then
      match m.jumps with
      | [] => some (m, io)
      | jmp :: rest =>
        let m := { m with jumps := rest }
        if jmp < 0 ∨ jmp ≥ (code.length : Int) then some (m, io)
        else some ({ m with instr_ptr := jmp.toNat }, io)
    else if tok.type = TT_POP_JMP_COND then
      match m.jumps, m.atoms with
      | jmp :: jrest, top :: arest =>
        let cond := atoi top.data
        let m := { m with jumps := jrest, atoms := arest }
        if jmp < 0 ∨ jmp ≥ (code.length : Int) then some (m, io)
        else if cond ≠ 0 then some ({ m with instr_ptr := jmp.toNat }, io)
        else some (m, io)
      | _, _ => some (m, io)
    else if tok.type = TT_PUSH_JMP then
      let r := for_each_reg m push_jmp m.jumps
      some ({ m with regs := r.1, jumps := r.2 }, io)
    else if tok.type = TT_SAVE_JMP then
      some ({ m with jumps := ((m.instr_ptr : Int) - 1) :: m.jumps }, io)
    else if tok.type = TT_EQUAL then
      match m.atoms with
      | [] => some (m, io)
      | top :: rest =>
        let m := { m with atoms := rest }
        some ({ m with regs := (for_each_reg m (equal top) ()).1 }, io)
    else if tok.type = TT_GREQUAL then
      some (with_scalar m grequal, io)
    else if tok.type = TT_GREATER then
      some (with_scalar m greater, io)
    else if tok.type = TT_LESS then
      some (with_scalar m less, io)
    else if tok.type = TT_LEQUAL then
      some (with_scalar m lequal, io)
    else if tok.type = TT_AND then
      let all_set := (for_each_reg m and_ true).2
      some ({ m with atoms :=
        { type := TT_LIT_NUM, data := if all_set then ['1'] else ['0'], line := -1 }
          :: m.atoms }, io)
    else if tok.type = TT_OR then
      let any_set := (for_each_reg m or_ false).2
      some ({ m with atoms :=
        { type := TT_LIT_NUM, data := if any_set then ['1'] else ['0'], line := -1 }
          :: m.atoms }, io)
    else if tok.type = TT_NOT then
      some ({ m with regs := (for_each_reg m not_ ()).1 }, io)
    else
      some (m, io)

/-- The initial machine of `main`. The initialiser names every member but `regs`, which
is therefore value-initialised: every byte zero, so each register has the tag with value
0, `RT_STR`, and a buffer of NULs, the empty text. -/
def machine_init : machine :=
  { regs := fun _ => reg.str []
    mask := 0x0
    instr_ptr := 0
    mode := op_mode.OM_ROW
    rev := false
    atoms := []
    jumps := [] }

/-- The run loop of `main`, `while (machine.instr_ptr < code->size()) exec_cycle(...)`,
for at most `fuel` cycles; `none` when the fuel does not suffice. A process that has been
killed runs no further cycle. -/
def run (code : List token) : Nat → machine → streams → Option (machine × streams)
  | 0, m, io =>
    if io.sigfpe then some (m, io)
    else if m.instr_ptr < code.length then none else some (m, io)
  | fuel + 1, m, io =>
    if io.sigfpe then some (m, io)
    else if m.instr_ptr < code.length then
      match exec_cycle m io code with
      | none => none
      | some r => run code fuel r.1 r.2
    else some (m, io)

/-! ## The selection, in the words of the specification -/

/-- The four fixed orders of the 16 register indices. -/
def traversal_order : op_mode → Bool → List Nat
  | .OM_ROW, false => [0, 1, 2, 3, 4, 5, 6, 7, 8, 9, 10, 11, 12, 13, 14, 15]
  | .OM_ROW, true => [3, 2, 1, 0, 7, 6, 5, 4, 11, 10, 9, 8, 15, 14, 13, 12]
  | .OM_COL, false => [0, 4, 8, 12, 1, 5, 9, 13, 2, 6, 10, 14, 3, 7, 11, 15]
  | .OM_COL, true => [12, 8, 4, 0, 13, 9, 5, 1, 14, 10, 6, 2, 15, 11, 7, 3]

/-- The selection: the fixed order of the mode, filtered to the indices whose mask bit
is set. -/
def selection (m : machine) : List Nat :=
  (traversal_order m.mode m.rev).filter (fun i => m.mask.testBit i)

/-- A callback that changes nothing and records each call it receives: the index and the
register passed to it. -/
def record (r : reg) (ind : Nat) (log : List (Nat × reg)) : reg × List (Nat × reg) :=
  (r, log ++ [(ind, r)])

/-- The sequence of register indices `for_each_reg` visits, as the callback sees it. -/
def visited (m : machine) : List Nat := (for_each_reg m record []).2.map Prod.fst

/-! ## Definitions used to state the theorems -/

/-- The word a toggle instruction of kind `ty` XORs into the mask, as `exec_cycle`
computes it. -/
def toggle_word (ty : Nat) : Nat :=
  if TT_TOGGLE_BIT_0 ≤ ty ∧ ty ≤ TT_TOGGLE_BIT_F then 1 <<< (ty - TT_TOGGLE_BIT_0)
  else if TT_TOGGLE_ROW_0 ≤ ty ∧ ty ≤ TT_TOGGLE_ROW_3 then 0xf <<< (4 * (ty - TT_TOGGLE_ROW_0))
  else if TT_TOGGLE_COL_0 ≤ ty ∧ ty ≤ TT_TOGGLE_COL_3 then 0x1111 <<< (ty - TT_TOGGLE_COL_0)
  else 0xffff

/-- The toggle instructions as the specification lists them: the source text of each and
the registers it names. -/
def toggle_table : List (List Char × List Nat) :=
  [(['0'], [0]), (['1'], [1]), (['2'], [2]), (['3'], [3]), (['4'], [4]), (['5'], [5]),
   (['6'], [6]), (['7'], [7]), (['8'], [8]), (['9'], [9]), (['a'], [10]), (['b'], [11]),
   (['c'], [12]), (['d'], [13]), (['e'], [14]), (['f'], [15]),
   (['|', '0'], [0, 4, 8, 12]), (['|', '1'], [1, 5, 9, 13]),
   (['|', '2'], [2, 6, 10, 14]), (['|', '3'], [3, 7, 11, 15]),
   ([BACKTICK, '0'], [0, 1, 2, 3]), ([BACKTICK, '1'], [4, 5, 6, 7]),
   ([BACKTICK, '2'], [8, 9, 10, 11]), ([BACKTICK, '3'], [12, 13, 14, 15]),
   (['A'], [0, 1, 2, 3, 4, 5, 6, 7, 8, 9, 10, 11, 12, 13, 14, 15])]

/-- The instruction kinds that pop one atom and do nothing on an empty atom stack. -/
def atom_consumers : List Nat :=
  [TT_POP_ATOM, TT_ADD, TT_SUB, TT_MUL, TT_DIV, TT_EQUAL, TT_GREQUAL, TT_GREATER, TT_LESS,
   TT_LEQUAL]

/-- The empty streams. -/
def no_streams : streams := { cout := [], cin := [], sigfpe := false }

/-- A machine whose 16 registers are integer registers holding 12, all selected. -/
def int_machine : machine :=
  { machine_init with regs := fun _ => reg.num 12, mask := 0xffff }

/-- Two column toggles in a row. -/
def C3_code : List token := [⟨TT_TOGGLE_COL_2, [], 1⟩, ⟨TT_TOGGLE_COL_2, [], 1⟩]

/-- A machine that selects registers 0, 1, 4 and 5. -/
def C4_machine : machine := { machine_init with mask := 0x33 }

/-- A lone `jump-pop-cond`, and a machine with one jump target and no atom. -/
def C6_code : List token := [⟨TT_POP_JMP_COND, [], 1⟩]

def C6_machine : machine := { machine_init with jumps := [0] }

/-- The three division instructions, each alone, and their machines: a zero on the atom
stack for `/`, and a selection that starts at register 4 for the rank division. -/
def C7_code_div : List token := [⟨TT_DIV, [], 1⟩]

def C7_code_num_div : List token := [⟨TT_NUM_DIV, [], 1⟩]

def C7_code_ind_div : List token := [⟨TT_IND_DIV, [], 1⟩]

def C7_machine_div : machine := { int_machine with atoms := [⟨TT_LIT_NUM, ['0'], 1⟩] }

def C7_machine_ind_div : machine := { int_machine with mask := 0xfff0 }

/-- A program with `jump-save` at index 1 and `jump-pop` at index 2. -/
def C9_code : List token := [⟨TT_TOGGLE_MAT, [], 1⟩, ⟨TT_SAVE_JMP, [], 1⟩, ⟨TT_POP_JMP, [], 1⟩]

/-- A lone `jump-pop`, and a machine whose jump stack has the out-of-range target 7 on top
of the target 0. -/
def C10_code : List token := [⟨TT_POP_JMP, [], 1⟩]

def C10_machine : machine := { machine_init with jumps := [7, 0] }

/-- The function `exec_cycle` called `n` times in a row; `none` when one of the fetches is
out of bounds. A process that has been killed makes no further call. -/
def exec_n (code : List token) : Nat → machine → streams → Option (machine × streams)
  | 0, m, io => some (m, io)
  | n + 1, m, io =>
    if io.sigfpe then some (m, io)
    else
      match exec_cycle m io code with
      | none => none
      | some r => exec_n code n r.1 r.2

/-- The source text of the scenario of C20. -/
def C20_src : List Char := ['$', '5', '$', '>', '0', '|', '0', 'A', '~', 'W']

/-- The instruction list `lex` produces from `C20_src`. -/
def C20_code : List token :=
  [⟨TT_LIT_NUM, ['5'], 1⟩, ⟨TT_POP_ATOM, [], 1⟩, ⟨TT_TOGGLE_BIT_0, [], 1⟩,
   ⟨TT_TOGGLE_COL_0, [], 1⟩, ⟨TT_TOGGLE_MAT, [], 1⟩, ⟨TT_OP_ORDER_REV, [], 1⟩,
   ⟨TT_WRITE_STDOUT_NEWLINE, [], 1⟩]

/-- The program pop-atom, push-atom. -/
def C13_code : List token := [⟨TT_POP_ATOM, [], 1⟩, ⟨TT_PUSH_ATOM, [], 1⟩]

/-- The register pop-atom writes for the atom `top`. -/
def popped_reg (top : token) : reg :=
  if top.type = TT_LIT_STR then reg.str (strncpy top.data)
  else if top.type = TT_LIT_CH then reg.num (char_to_long (top.data.headD NUL))
  else reg.num (atoi top.data)

/-- The atom push-atom pushes for the register `r`. -/
def atom_of_reg (r : reg) : token :=
  match r with
  | .num n => { type := TT_LIT_NUM, data := to_string n, line := -1 }
  | .str s => { type := TT_LIT_STR, data := reg_text s, line := -1 }

/-- A machine that selects register 2 only and has one atom on its stack. -/
def C13_machine (top : token) : machine := { machine_init with mask := 4, atoms := [top] }

/-- A register whose text, if it is a text register, has at most `cap` bytes. -/
def text_bounded (cap : Nat) (r : reg) : Prop := ∀ s, r = reg.str s → s.length ≤ cap

/-- A source that pops a string literal of 38 bytes into register 0, and the instruction
list `lex` produces from it. -/
def C14_src : List Char := ['0', DQUOTE] ++ List.replicate 38 'a' ++ [DQUOTE, '>']

def C14_code : List token :=
  [⟨TT_TOGGLE_BIT_0, [], 1⟩, ⟨TT_LIT_STR, List.replicate 38 'a', 1⟩, ⟨TT_POP_ATOM, [], 1⟩]

/-- The instruction `equal` alone. -/
def C15_code : List token := [⟨TT_EQUAL, [], 1⟩]

/-- A machine that selects register 0, a text register holding `a`, with the string atom
whose payload is the three bytes `a`, NUL, `b` on its stack. -/
def C15_machine_nul : machine :=
  { machine_init with
    mask := 1, regs := fun _ => reg.str ['a'], atoms := [⟨TT_LIT_STR, ['a', NUL, 'b'], 1⟩] }

/-- A machine that selects register 0, an integer register holding 2147483648, with the
number atom `2147483648` on its stack. -/
def C15_machine_big : machine :=
  { machine_init with
    mask := 1, regs := fun _ => reg.num 2147483648,
    atoms := [⟨TT_LIT_NUM, ['2', '1', '4', '7', '4', '8', '3', '6', '4', '8'], -1⟩] }

/-- A machine with register 0, holding 7, and register 1, holding the text `ab`, selected,
and register 2, holding 7, not selected; the atom is built from the payload. -/
def C15_machine (top : token) : machine :=
  { machine_init with
    mask := 3, atoms := [top],
    regs := fun i => if i = 1 then reg.str ['a', 'b'] else reg.num 7 }

/-- An integer register holding zero. -/
def int_zero (r : reg) : Bool :=
  match r with
  | .num n => n = 0
  | .str _ => false

/-- An integer register holding a non-zero value. -/
def int_nonzero (r : reg) : Bool :=
  match r with
  | .num n => n ≠ 0
  | .str _ => false

/-- The instructions `and` and `or`, each alone, and a machine that selects registers 0
(integer 3), 1 (text) and 2 (integer 0 or 5), in column mode and reversed. -/
def C16_code_and : List token := [⟨TT_AND, [], 1⟩]

def C16_code_or : List token := [⟨TT_OR, [], 1⟩]

def C16_machine (n : Int) : machine :=
  { machine_init with
    mask := 7, mode := op_mode.OM_COL, rev := true,
    regs := fun i => if i = 0 then reg.num 3 else if i = 1 then reg.str ['x'] else reg.num n }

/-- The instruction push-atom alone, and a machine in row mode that selects registers 0
(integer 5) and 1 (text `ab`) and has one atom on its stack. -/
def C17_code : List token := [⟨TT_PUSH_ATOM, [], 1⟩]

def C17_machine : machine :=
  { machine_init with
    mask := 3, atoms := [⟨TT_LIT_CH, ['z'], 1⟩],
    regs := fun i => if i = 1 then reg.str ['a', 'b'] else reg.num 5 }

/-- The register grid-add and rank-add write for the operand `k`: `reg.data.num += k` on an
integer register, nothing on a text register. -/
def add_operand (r : reg) (k : Nat) : reg :=
  match r with
  | .num n => reg.num (to_long (to_ulong n + k))
  | .str _ => r

/-- The instruction grid-add alone, and the instruction rank-add alone. -/
def code_num_add : List token := [⟨TT_NUM_ADD, [], 1⟩]

def code_ind_add : List token := [⟨TT_IND_ADD, [], 1⟩]

/-- The machine with 16 selected integer registers holding 12, in column mode. -/
def C18_machine : machine := { int_machine with mode := op_mode.OM_COL }

/-- A machine in column mode, reversed, that selects register 0 alone, and a machine in
row mode, forward, that selects registers 0, 1 and 2; all registers are integers. -/
def C19_machine_one : machine :=
  { int_machine with mask := 1, mode := op_mode.OM_COL, rev := true }

def C19_machine_three : machine := { int_machine with mask := 7 }

/-- The source text of the scenario of C21, and the same source with the pop-atom
instruction `>` in place of `o`, together with the instruction list `lex` produces from
the latter. -/
def C21_src : List Char := ['0', DQUOTE, '4', '2', DQUOTE, 'o', 'w', '#']

def C21_src_pop : List Char := ['0', DQUOTE, '4', '2', DQUOTE, '>', 'w', '#']

def C21_code : List token :=
  [⟨TT_TOGGLE_BIT_0, [], 1⟩, ⟨TT_LIT_STR, ['4', '2'], 1⟩, ⟨TT_POP_ATOM, [], 1⟩,
   ⟨TT_WRITE_STDOUT, [], 1⟩, ⟨TT_STR_TO_INT, [], 1⟩]

/-- The run loop of `main` stopped after at most `k` passes through its body: the state
it has reached. The result is `none` only when a fetch `code[instr_ptr]` is out of
bounds. A process that has been killed runs no further pass. -/
def run_upto (code : List token) : Nat → machine → streams → Option (machine × streams)
  | 0, m, io => some (m, io)
  | k + 1, m, io =>
    if io.sigfpe then some (m, io)
    else if m.instr_ptr < code.length then
      match exec_cycle m io code with
      | none => none
      | some r => run_upto code k r.1 r.2
    else some (m, io)

/-- A program that makes register 0 hold 100, pushes it onto the jump stack and executes
jump-pop; and a machine about to execute that jump-pop with a negative target on top of
the valid target 1. -/
def C22_code : List token :=
  [⟨TT_TOGGLE_BIT_0, [], 1⟩, ⟨TT_LIT_NUM, ['1', '0', '0'], 1⟩, ⟨TT_POP_ATOM, [], 1⟩,
   ⟨TT_PUSH_JMP, [], 1⟩, ⟨TT_POP_JMP, [], 1⟩]

def C22_machine : machine := { machine_init with instr_ptr := 4, jumps := [-3, 1] }

/-! ## Lemmas on the traversal -/

theorem mask_bit_iff (mask i : Nat) : mask &&& (1 <<< i) ≠ 0 ↔ mask.testBit i = true := by
  rw [Nat.one_shiftLeft]
  constructor
  · intro h
    obtain ⟨j, hj⟩ := Nat.ne_zero_implies_bit_true h
    rw [Nat.testBit_and, Nat.testBit_two_pow] at hj
    simp only [Bool.and_eq_true, decide_eq_true_eq] at hj
    rw [hj.2]; exact hj.1
  · intro h h0
    have := congrArg (fun x => Nat.testBit x i) h0
    simp [Nat.testBit_two_pow, h] at this

theorem for_each_reg_eq_foldl {κ : Type} (m : machine) (fn : reg → Nat → κ → reg × κ)
    (k : κ) :
    for_each_reg m fn k
      = (traversal_order m.mode m.rev).foldl (fun st ind => maybe_apply m.mask fn ind st)
          (m.regs, k) := by
  unfold for_each_reg
  cases hm : m.mode <;> cases hr : m.rev <;> rfl

theorem foldl_maybe_apply {κ : Type} (mask : Nat) (fn : reg → Nat → κ → reg × κ)
    (l : List Nat) (st : (Fin 16 → reg) × κ) :
    l.foldl (fun st ind => maybe_apply mask fn ind st) st
      = (l.filter (fun i => mask.testBit i)).foldl (fun st ind => call_fn fn ind st) st := by
  induction l generalizing st with
  | nil => rfl
  | cons a l ih =>
    by_cases h : mask.testBit a = true
    · have h' : mask &&& (1 <<< a) ≠ 0 := (mask_bit_iff mask a).2 h
      simp only [List.foldl_cons, List.filter_cons, h, if_true, ih]
      congr 1
      simp only [maybe_apply, h', ne_eq, not_false_eq_true, if_true]
    · have h' : ¬ (mask &&& (1 <<< a) ≠ 0) := fun c => h ((mask_bit_iff mask a).1 c)
      simp only [List.foldl_cons, List.filter_cons, h, ih]
      congr 1
      simp only [maybe_apply, h', if_false]

/-- The traversal is a left fold of the callback over the selection. -/
theorem for_each_reg_selection {κ : Type} (m : machine) (fn : reg → Nat → κ → reg × κ)
    (k : κ) :
    for_each_reg m fn k
      = (selection m).foldl (fun st ind => call_fn fn ind st) (m.regs, k) := by
  rw [for_each_reg_eq_foldl, foldl_maybe_apply]; rfl

theorem foldl_record (l : List Nat) (regs : Fin 16 → reg) (log : List (Nat × reg)) :
    l.foldl (fun st ind => call_fn record ind st) (regs, log)
      = (regs, log ++ l.map (fun i => (i, regs (Fin.ofNat i)))) := by
  induction l generalizing log with
  | nil => simp
  | cons a l ih =>
    simp only [List.foldl_cons, List.map_cons]
    have h : call_fn record a (regs, log) = (regs, log ++ [(a, regs (Fin.ofNat a))]) := by
      simp [call_fn, record]
    rw [h, ih]; simp

theorem traversal_order_nodup (mode : op_mode) (rev : Bool) :
    (traversal_order mode rev).Nodup := by
  cases mode <;> cases rev <;> decide

theorem mem_traversal_order (mode : op_mode) (rev : Bool) (i : Nat) :
    i ∈ traversal_order mode rev ↔ i < 16 := by
  cases mode <;> cases rev <;> simp [traversal_order] <;> omega

theorem selection_nodup (m : machine) : (selection m).Nodup :=
  (traversal_order_nodup m.mode m.rev).filter _

theorem mem_selection (m : machine) (i : Nat) :
    i ∈ selection m ↔ (i < 16 ∧ m.mask.testBit i = true) := by
  simp [selection, List.mem_filter, mem_traversal_order]

theorem visited_eq_selection (m : machine) : visited m = selection m := by
  simp [visited, for_each_reg_selection, foldl_record, Function.comp_def]

theorem filter_swap {α : Type} (p q : α → Bool) (l : List α) :
    (l.filter p).filter q = (l.filter q).filter p := by
  rw [List.filter_filter, List.filter_filter]
  congr 1; funext a; exact Bool.and_comm _ _

/-- Filtering by `p` and reversing, within the part of a list selected by `q`. -/
theorem reverse_part (p q : Nat → Bool) (l part : List Nat) (h : l.filter q = part) :
    ((l.filter p).filter q).reverse = part.reverse.filter p := by
  rw [filter_swap, h, List.filter_reverse]

/-- A register is left as it was by a traversal whose callback leaves it as it was. -/
theorem foldl_call_fn_unchanged {κ : Type} (fn : reg → Nat → κ → reg × κ) (j : Fin 16)
    (l : List Nat) (st : (Fin 16 → reg) × κ)
    (h : ∀ ind ∈ l, Fin.ofNat ind = j → ∀ r k, (fn r ind k).1 = r) :
    (l.foldl (fun st ind => call_fn fn ind st) st).1 j = st.1 j := by
  induction l generalizing st with
  | nil => rfl
  | cons a l ih =>
    rw [List.foldl_cons, ih _ (fun ind hind => h ind (List.mem_cons_of_mem _ hind))]
    by_cases e : Fin.ofNat a = j
    · subst e
      simp [call_fn, h a (List.mem_cons_self _ _) rfl]
    · simp [call_fn, Function.update_noteq (Ne.symm e)]

theorem ofNat_inj_of_lt {a b : Nat} (ha : a < 16) (hb : b < 16)
    (h : (Fin.ofNat a : Fin 16) = Fin.ofNat b) : a = b := by
  have := congrArg Fin.val h
  simp only [Fin.ofNat, Nat.mod_eq_of_lt ha, Nat.mod_eq_of_lt hb] at this
  exact this

/-! ## Lemmas on the toggle instructions -/

theorem exec_cycle_toggle (m : machine) (io : streams) (code : List token) (tok : token)
    (hc : code[m.instr_ptr]? = some tok)
    (ht : TT_TOGGLE_BIT_0 ≤ tok.type ∧ tok.type ≤ TT_TOGGLE_MAT) :
    exec_cycle m io code
      = some ({ m with instr_ptr := m.instr_ptr + 1,
                       mask := (m.mask ^^^ toggle_word tok.type) % 2 ^ 16 }, io) := by
  simp only [TT_TOGGLE_BIT_0, TT_TOGGLE_MAT] at ht
  unfold exec_cycle toggle_word
  simp only [hc]
  by_cases h1 : TT_TOGGLE_BIT_0 ≤ tok.type ∧ tok.type ≤ TT_TOGGLE_BIT_F
  · rw [if_pos h1, if_pos h1]
  · by_cases h2 : TT_TOGGLE_ROW_0 ≤ tok.type ∧ tok.type ≤ TT_TOGGLE_ROW_3
    · rw [if_neg h1, if_neg h1, if_pos h2, if_pos h2]
    · by_cases h3 : TT_TOGGLE_COL_0 ≤ tok.type ∧ tok.type ≤ TT_TOGGLE_COL_3
      · rw [if_neg h1, if_neg h1, if_neg h2, if_neg h2, if_pos h3, if_pos h3]
      · have h4 : tok.type = TT_TOGGLE_MAT := by
          simp only [TT_TOGGLE_BIT_0, TT_TOGGLE_BIT_F, TT_TOGGLE_ROW_0, TT_TOGGLE_ROW_3,
            TT_TOGGLE_COL_0, TT_TOGGLE_COL_3, TT_TOGGLE_MAT] at *
          omega
        rw [if_neg h1, if_neg h1, if_neg h2, if_neg h2, if_neg h3, if_neg h3, if_pos h4]

theorem toggle_word_lt (ty : Nat) (ht : TT_TOGGLE_BIT_0 ≤ ty ∧ ty ≤ TT_TOGGLE_MAT) :
    toggle_word ty < 2 ^ 16 := by
  simp only [TT_TOGGLE_BIT_0, TT_TOGGLE_MAT] at ht
  obtain ⟨h1, h2⟩ := ht
  interval_cases ty <;> decide

theorem toggle_twice (mask x : Nat) (hm : mask < 2 ^ 16) (hx : x < 2 ^ 16) :
    ((mask ^^^ x) % 2 ^ 16 ^^^ x) % 2 ^ 16 = mask := by
  have h1 : mask ^^^ x < 2 ^ 16 := Nat.xor_lt_two_pow hm hx
  rw [Nat.mod_eq_of_lt h1, Nat.xor_assoc, Nat.xor_self, Nat.xor_zero, Nat.mod_eq_of_lt hm]

theorem xor_mask_bits (mask x i : Nat) :
    ((mask ^^^ x) % 2 ^ 16).testBit i
      = (decide (i < 16) && xor (mask.testBit i) (x.testBit i)) := by
  rw [Nat.testBit_mod_two_pow, Nat.testBit_xor]

/-- One line of the toggle table: the source lexes to one token of kind `ty`, a toggle
kind whose word has exactly the named bits. -/
theorem toggle_case (src : List Char) (named : List Nat) (ty : Nat)
    (hlex : ∀ g, lex src g = some { cerr := [], toks := some [⟨ty, [], 1⟩] })
    (hty : TT_TOGGLE_BIT_0 ≤ ty ∧ ty ≤ TT_TOGGLE_MAT)
    (hbits : ∀ i, i < 16 → (toggle_word ty).testBit i = decide (i ∈ named))
    (garbage : Nat) :
    ∃ tok, lex src garbage = some { cerr := [], toks := some [tok] }
      ∧ ∀ (m : machine) (io : streams) (code : List token),
          code[m.instr_ptr]? = some tok →
          ∃ mask', exec_cycle m io code
                = some ({ m with instr_ptr := m.instr_ptr + 1, mask := mask' }, io)
            ∧ mask' < 2 ^ 16
            ∧ ∀ i, i < 16 → mask'.testBit i = xor (m.mask.testBit i) (decide (i ∈ named)) := by
  refine ⟨_, hlex garbage, fun m io code hc =>
    ⟨_, exec_cycle_toggle m io code _ hc hty, ?_, ?_⟩⟩
  · exact Nat.mod_lt _ (by norm_num)
  · intro i hi
    rw [xor_mask_bits, hbits i hi]; simp [hi]

/-! ## Lemmas on the registers after a traversal -/

theorem ofNat_val (i : Fin 16) : (Fin.ofNat i.val : Fin 16) = i := by
  apply Fin.ext
  simp [Fin.ofNat, Nat.mod_eq_of_lt i.isLt]

theorem ofNat_ne_of_ne {a : Nat} {i : Fin 16} (ha : a < 16) (h : i.val ≠ a) :
    (Fin.ofNat a : Fin 16) ≠ i := by
  intro e
  apply h
  rw [← e]
  simp [Fin.ofNat, Nat.mod_eq_of_lt ha]

/-- When the register a callback gives back does not depend on the captured variables, a
traversal over distinct indices applies the callback once to each listed register and
leaves the others as they were. -/
theorem foldl_call_fn_apply {κ : Type} (fn : reg → Nat → κ → reg × κ) (f : reg → Nat → reg)
    (hf : ∀ r ind k, (fn r ind k).1 = f r ind) (l : List Nat) (hnd : l.Nodup)
    (hlt : ∀ a ∈ l, a < 16) (st : (Fin 16 → reg) × κ) (i : Fin 16) :
    (l.foldl (fun st ind => call_fn fn ind st) st).1 i
      = if i.val ∈ l then f (st.1 i) i.val else st.1 i := by
  induction l generalizing st with
  | nil => simp
  | cons a l ih =>
    have hnd' := (List.nodup_cons.1 hnd)
    rw [List.foldl_cons, ih hnd'.2 (fun b hb => hlt b (List.mem_cons_of_mem _ hb))]
    by_cases e : i.val = a
    · subst e
      have hnot : ¬ (i.val ∈ l) := hnd'.1
      simp [hnot, call_fn, ofNat_val, hf]
    · have hne : (Fin.ofNat a : Fin 16) ≠ i := ofNat_ne_of_ne (hlt a (List.mem_cons_self _ _)) e
      have h1 : (call_fn fn a st).1 i = st.1 i := by
        simp [call_fn, Function.update_noteq (Ne.symm hne)]
      simp [h1, e]

/-- The registers after `for_each_reg`, for a callback whose effect on the register does
not depend on the captured variables: the callback applied to the selected registers. -/
theorem for_each_reg_apply {κ : Type} (m : machine) (fn : reg → Nat → κ → reg × κ)
    (f : reg → Nat → reg) (hf : ∀ r ind k, (fn r ind k).1 = f r ind) (k : κ) (i : Fin 16) :
    (for_each_reg m fn k).1 i
      = if m.mask.testBit i.val = true then f (m.regs i) i.val else m.regs i := by
  rw [for_each_reg_selection,
    foldl_call_fn_apply fn f hf _ (selection_nodup m) (fun a ha => ((mem_selection m a).1 ha).1)]
  simp [mem_selection, i.isLt]

/-- A traversal keeps every property of the registers that its callback keeps. -/
theorem for_each_reg_preserves {κ : Type} (P : reg → Prop) (m : machine)
    (fn : reg → Nat → κ → reg × κ) (hfn : ∀ r ind k, P r → P (fn r ind k).1) (k : κ)
    (h : ∀ i, P (m.regs i)) (i : Fin 16) : P ((for_each_reg m fn k).1 i) := by
  rw [for_each_reg_selection]
  generalize selection m = l
  have key : ∀ (l : List Nat) (st : (Fin 16 → reg) × κ), (∀ i, P (st.1 i)) →
      ∀ i, P ((l.foldl (fun st ind => call_fn fn ind st) st).1 i) := by
    intro l
    induction l with
    | nil => intro st hst i; exact hst i
    | cons a l ih =>
      intro st hst i
      rw [List.foldl_cons]
      apply ih
      intro j
      by_cases e : j = Fin.ofNat a
      · subst e; simp [call_fn]; exact hfn _ _ _ (hst _)
      · simp [call_fn, Function.update_noteq e]; exact hst j
  exact key l _ h i

/-! ## Lemmas on pop-atom and push-atom -/

theorem exec_pop_atom (m : machine) (io : streams) (code : List token) (tok top : token)
    (rest : List token) (hc : code[m.instr_ptr]? = some tok) (ht : tok.type = TT_POP_ATOM)
    (ha : m.atoms = top :: rest) :
    exec_cycle m io code
      = some ({ m with
          instr_ptr := m.instr_ptr + 1
          atoms := rest
          regs := fun i => if m.mask.testBit i.val = true then popped_reg top else m.regs i },
          io) := by
  by_cases hs : top.type = TT_LIT_STR
  · simp only [exec_cycle, hc, ht, ha]
    simp only [TT_POP_ATOM, TT_TOGGLE_BIT_0, TT_TOGGLE_BIT_F, TT_TOGGLE_ROW_0, TT_TOGGLE_ROW_3,
      TT_TOGGLE_COL_0, TT_TOGGLE_COL_3, TT_TOGGLE_MAT, TT_LIT_STR, TT_LIT_CH, TT_LIT_NUM,
      TT_OP_MODE_COL, TT_OP_MODE_ROW, TT_OP_ORDER_REV] at hs ⊢
    simp only [hs, popped_reg, TT_LIT_STR]
    simp
    funext i
    rw [for_each_reg_apply _ (pop_str top) (fun _ _ => reg.str (strncpy top.data))
      (fun _ _ _ => rfl)]
  · by_cases hch : top.type = TT_LIT_CH
    · simp only [exec_cycle, hc, ht, ha]
      simp only [TT_POP_ATOM, TT_TOGGLE_BIT_0, TT_TOGGLE_BIT_F, TT_TOGGLE_ROW_0,
        TT_TOGGLE_ROW_3, TT_TOGGLE_COL_0, TT_TOGGLE_COL_3, TT_TOGGLE_MAT, TT_LIT_STR,
        TT_LIT_CH, TT_LIT_NUM, TT_OP_MODE_COL, TT_OP_MODE_ROW, TT_OP_ORDER_REV] at hs hch ⊢
      simp only [hs, hch, popped_reg, TT_LIT_STR, TT_LIT_CH]
      simp
      funext i
      rw [for_each_reg_apply _ (pop_ch top)
        (fun _ _ => reg.num (char_to_long (top.data.headD NUL))) (fun _ _ _ => rfl)]
      simp
    · simp only [exec_cycle, hc, ht, ha]
      simp only [TT_POP_ATOM, TT_TOGGLE_BIT_0, TT_TOGGLE_BIT_F, TT_TOGGLE_ROW_0,
        TT_TOGGLE_ROW_3, TT_TOGGLE_COL_0, TT_TOGGLE_COL_3, TT_TOGGLE_MAT, TT_LIT_STR,
        TT_LIT_CH, TT_LIT_NUM, TT_OP_MODE_COL, TT_OP_MODE_ROW, TT_OP_ORDER_REV] at hs hch ⊢
      simp only [hs, hch, popped_reg, TT_LIT_STR, TT_LIT_CH]
      simp
      funext i
      rw [for_each_reg_apply _ (pop_num top) (fun _ _ => reg.num (atoi top.data))
        (fun _ _ _ => rfl)]

theorem push_eq (r : reg) (num : Nat) (atoms : List token) :
    push r num atoms = (r, atom_of_reg r :: atoms) := by
  cases r <;> rfl

theorem foldl_push (l : List Nat) (regs : Fin 16 → reg) (atoms : List token) :
    l.foldl (fun st ind => call_fn push ind st) (regs, atoms)
      = (regs, (l.map (fun i => atom_of_reg (regs (Fin.ofNat i)))).reverse ++ atoms) := by
  induction l generalizing atoms with
  | nil => simp
  | cons a l ih =>
    have h : call_fn push a (regs, atoms)
        = (regs, atom_of_reg (regs (Fin.ofNat a)) :: atoms) := by
      simp [call_fn, push_eq]
    rw [List.foldl_cons, h, ih]; simp

theorem exec_push_atom (m : machine) (io : streams) (code : List token) (tok : token)
    (hc : code[m.instr_ptr]? = some tok) (ht : tok.type = TT_PUSH_ATOM) :
    exec_cycle m io code
      = some ({ m with
          instr_ptr := m.instr_ptr + 1
          atoms := ((visited m).map (fun i => atom_of_reg (m.regs (Fin.ofNat i)))).reverse
            ++ m.atoms }, io) := by
  have hsel : selection { m with instr_ptr := m.instr_ptr + 1 } = selection m := rfl
  simp [exec_cycle, hc, ht, for_each_reg_selection, foldl_push, hsel, visited_eq_selection]

theorem selection_single (m : machine) (j : Nat) (hj : j < 16) (hm : m.mask = 2 ^ j) :
    selection m = [j] := by
  unfold selection
  rw [hm]
  cases m.mode <;> cases m.rev <;> interval_cases j <;> decide

theorem c_str_of_not_mem (s : List Char) (h : NUL ∉ s) : c_str s = s := by
  unfold c_str
  rw [List.takeWhile_eq_self_iff]
  intro c hc
  simp only [bne_iff_ne, ne_eq]
  intro e; subst e; exact h hc

theorem strncpy_length_le (s : List Char) : (strncpy s).length ≤ 38 := by
  simp [strncpy, REG_STR_SIZE, List.length_take]

theorem strncpy_short (s : List Char) (h : NUL ∉ s) (hl : s.length ≤ 38) : strncpy s = s := by
  simp [strncpy, REG_STR_SIZE, c_str_of_not_mem s h, List.take_of_length_le hl]

/-! ## Lemmas on what `exec_cycle` can write into a register -/

/-- A property of registers that holds of every integer register and of every text
register written by `strncpy` is kept by `exec_cycle`: each instruction leaves a register
as it was, or makes it an integer register, or writes its text with `strncpy`. -/
theorem exec_cycle_preserves (P : reg → Prop) (hstr : ∀ s, P (reg.str (strncpy s)))
    (hnum : ∀ n, P (reg.num n)) (m : machine) (io : streams) (code : List token)
    (r : machine × streams) (hb : ∀ i, P (m.regs i))
    (h : exec_cycle m io code = some r) : ∀ i, P (r.1.regs i) := by
  simp only [exec_cycle, with_scalar] at h
  cases hc : code[m.instr_ptr]? with
  | none => rw [hc] at h; cases h
  | some tok =>
  rw [hc] at h
  simp only at h
  by_cases c : TT_TOGGLE_BIT_0 ≤ tok.type ∧ tok.type ≤ TT_TOGGLE_BIT_F
  rotate_left
  rw [if_neg c] at h; clear c
  by_cases c : TT_TOGGLE_ROW_0 ≤ tok.type ∧ tok.type ≤ TT_TOGGLE_ROW_3
  rotate_left
  rw [if_neg c] at h; clear c
  by_cases c : TT_TOGGLE_COL_0 ≤ tok.type ∧ tok.type ≤ TT_TOGGLE_COL_3
  rotate_left
  rw [if_neg c] at h; clear c
  by_cases c : tok.type = TT_TOGGLE_MAT
  rotate_left
  rw [if_neg c] at h; clear c
  by_cases c : tok.type = TT_LIT_STR ∨ tok.type = TT_LIT_CH ∨ tok.type = TT_LIT_NUM
  rotate_left
  rw [if_neg c] at h; clear c
  by_cases c : tok.type = TT_OP_MODE_COL
  rotate_left
  rw [if_neg c] at h; clear c
  by_cases c : tok.type = TT_OP_MODE_ROW
  rotate_left
  rw [if_neg c] at h; clear c
  by_cases c : tok.type = TT_OP_ORDER_REV
  rotate_left
  rw [if_neg c] at h; clear c
  by_cases c : tok.type = TT_POP_ATOM
  rotate_left
  rw [if_neg c] at h; clear c
  by_cases c : tok.type = TT_PUSH_ATOM
  rotate_left
  rw [if_neg c] at h; clear c
  by_cases c : tok.type = TT_WRITE_STDOUT
  rotate_left
  rw [if_neg c] at h; clear c
  by_cases c : tok.type = TT_WRITE_STDOUT_NEWLINE
  rotate_left
  rw [if_neg c] at h; clear c
  by_cases c : tok.type = TT_READ_STDIN
  rotate_left
  rw [if_neg c] at h; clear c
  by_cases c : tok.type = TT_STR_TO_INT
  rotate_left
  rw [if_neg c] at h; clear c
  by_cases c : tok.type = TT_INT_TO_STR
  rotate_left
  rw [if_neg c] at h; clear c
  by_cases c : tok.type = TT_ADD
  rotate_left
  rw [if_neg c] at h; clear c
  by_cases c : tok.type = TT_SUB
  rotate_left
  rw [if_neg c] at h; clear c
  by_cases c : tok.type = TT_MUL
  rotate_left
  rw [if_neg c] at h; clear c
  by_cases c : tok.type = TT_DIV
  rotate_left
  rw [if_neg c] at h; clear c
  by_cases c : tok.type = TT_NUM_ADD
  rotate_left
  rw [if_neg c] at h; clear c
  by_cases c : tok.type = TT_NUM_SUB
  rotate_left
  rw [if_neg c] at h; clear c
  by_cases c : tok.type = TT_NUM_MUL
  rotate_left
  rw [if_neg c] at h; clear c
  by_cases c : tok.type = TT_NUM_DIV
  rotate_left
  rw [if_neg c] at h; clear c
  by_cases c : tok.type = TT_IND_ADD
  rotate_left
  rw [if_neg c] at h; clear c
  by_cases c : tok.type = TT_IND_SUB
  rotate_left
  rw [if_neg c] at h; clear c
  by_cases c : tok.type = TT_IND_MUL
  rotate_left
  rw [if_neg c] at h; clear c
  by_cases c : tok.type = TT_IND_DIV
  rotate_left
  rw [if_neg c] at h; clear c
  by_cases c : tok.type = TT_POP_JMP
  rotate_left
  rw [if_neg c] at h; clear c
  by_cases c : tok.type = TT_POP_JMP_COND
  rotate_left
  rw [if_neg c] at h; clear c
  by_cases c : tok.type = TT_PUSH_JMP
  rotate_left
  rw [if_neg c] at h; clear c
  by_cases c : tok.type = TT_SAVE_JMP
  rotate_left
  rw [if_neg c] at h; clear c
  by_cases c : tok.type = TT_EQUAL
  rotate_left
  rw [if_neg c] at h; clear c
  by_cases c : tok.type = TT_GREQUAL
  rotate_left
  rw [if_neg c] at h; clear c
  by_cases c : tok.type = TT_GREATER
  rotate_left
  rw [if_neg c] at h; clear c
  by_cases c : tok.type = TT_LESS
  rotate_left
  rw [if_neg c] at h; clear c
  by_cases c : tok.type = TT_LEQUAL
  rotate_left
  rw [if_neg c] at h; clear c
  by_cases c : tok.type = TT_AND
  rotate_left
  rw [if_neg c] at h; clear c
  by_cases c : tok.type = TT_OR
  rotate_left
  rw [if_neg c] at h; clear c
  by_cases c : tok.type = TT_NOT
  rotate_left
  rw [if_neg c] at h; clear c
  all_goals try rw [if_pos c] at h
  all_goals repeat' split at h
  all_goals
    obtain rfl := Option.some.inj h
    intro i
    first
      | exact hb i
      | (apply for_each_reg_preserves P _ _ _ _ hb
         intro r ind k hr
         cases r <;>
           first
             | exact hr
             | exact hnum _
             | exact hstr _
             | (simp only [div, num_div, ind_div, equal, and_, or_]
                repeat' split
                all_goals first | exact hr | exact hnum _))

theorem text_bounded_num (cap : Nat) (n : Int) : text_bounded cap (reg.num n) := by
  intro s h; cases h

theorem text_bounded_strncpy (s : List Char) : text_bounded 38 (reg.str (strncpy s)) := by
  intro t h
  cases h
  exact strncpy_length_le s
theorem exec_n_text_bounded (code : List token) (n : Nat) (m : machine) (io : streams)
    (r : machine × streams) (hb : ∀ i, text_bounded 38 (m.regs i))
    (h : exec_n code n m io = some r) : ∀ i, text_bounded 38 (r.1.regs i) := by
  induction n generalizing m io with
  | zero =>
    simp only [exec_n, Option.some.injEq] at h
    subst h
    exact hb
  | succ n ih =>
    simp only [exec_n] at h
    by_cases hk : io.sigfpe = true
    · rw [if_pos hk] at h
      obtain rfl := Option.some.inj h
      exact hb
    · rw [if_neg hk] at h
      cases hc : exec_cycle m io code with
      | none => rw [hc] at h; cases h
      | some r1 =>
        rw [hc] at h
        exact ih r1.1 r1.2
          (exec_cycle_preserves (text_bounded 38) text_bounded_strncpy (text_bounded_num 38)
            m io code r1 hb hc) h

/-! ## Lemmas on equal, and, or -/

theorem exec_equal (m : machine) (io : streams) (code : List token) (tok top : token)
    (rest : List token) (hc : code[m.instr_ptr]? = some tok) (ht : tok.type = TT_EQUAL)
    (ha : m.atoms = top :: rest) :
    exec_cycle m io code
      = some ({ m with
          instr_ptr := m.instr_ptr + 1
          atoms := rest
          regs := fun i =>
            if m.mask.testBit i.val = true then (equal top (m.regs i) i.val ()).1
            else m.regs i }, io) := by
  simp [exec_cycle, hc, ht, ha]
  funext i
  rw [for_each_reg_apply _ (equal top) (fun r ind => (equal top r ind ()).1)
    (fun r ind k => by cases r <;> simp [equal])]

theorem and_eq (r : reg) (num : Nat) (b : Bool) : and_ r num b = (r, b && !int_zero r) := by
  cases r with
  | str s => simp [and_, int_zero]
  | num n => by_cases h : n = 0 <;> simp [and_, int_zero, h]

theorem or_eq (r : reg) (num : Nat) (b : Bool) : or_ r num b = (r, b || int_nonzero r) := by
  cases r with
  | str s => simp [or_, int_nonzero]
  | num n => by_cases h : n = 0 <;> simp [or_, int_nonzero, h]

theorem foldl_and (l : List Nat) (regs : Fin 16 → reg) (b : Bool) :
    l.foldl (fun st ind => call_fn and_ ind st) (regs, b)
      = (regs, b && l.all (fun i => !int_zero (regs (Fin.ofNat i)))) := by
  induction l generalizing b with
  | nil => simp
  | cons a l ih =>
    have h : call_fn and_ a (regs, b) = (regs, b && !int_zero (regs (Fin.ofNat a))) := by
      simp [call_fn, and_eq]
    rw [List.foldl_cons, h, ih]; simp [Bool.and_assoc]

theorem foldl_or (l : List Nat) (regs : Fin 16 → reg) (b : Bool) :
    l.foldl (fun st ind => call_fn or_ ind st) (regs, b)
      = (regs, b || l.any (fun i => int_nonzero (regs (Fin.ofNat i)))) := by
  induction l generalizing b with
  | nil => simp
  | cons a l ih =>
    have h : call_fn or_ a (regs, b) = (regs, b || int_nonzero (regs (Fin.ofNat a))) := by
      simp [call_fn, or_eq]
    rw [List.foldl_cons, h, ih]; simp [Bool.or_assoc]

theorem and_flag_iff (m : machine) :
    (for_each_reg m and_ true).2 = true
      ↔ ∀ i : Fin 16, m.mask.testBit i.val = true → ∀ n, m.regs i = reg.num n → n ≠ 0 := by
  rw [for_each_reg_selection, foldl_and]
  simp only [Bool.true_and, List.all_eq_true, mem_selection, Bool.not_eq_true']
  constructor
  · intro h i hi n hn e
    have := h i.val ⟨i.isLt, hi⟩
    rw [ofNat_val, hn, e] at this
    simp [int_zero] at this
  · intro h a ha
    have := h (Fin.ofNat a) (by simpa [Fin.ofNat, Nat.mod_eq_of_lt ha.1] using ha.2)
    cases hr : m.regs (Fin.ofNat a) with
    | str s => rfl
    | num n =>
      have hn := this n hr
      simp [int_zero, hn]

theorem or_flag_iff (m : machine) :
    (for_each_reg m or_ false).2 = true
      ↔ ∃ i : Fin 16, m.mask.testBit i.val = true ∧ ∃ n, m.regs i = reg.num n ∧ n ≠ 0 := by
  rw [for_each_reg_selection, foldl_or]
  simp only [Bool.false_or, List.any_eq_true, mem_selection]
  constructor
  · rintro ⟨a, ha, h⟩
    refine ⟨Fin.ofNat a, by simpa [Fin.ofNat, Nat.mod_eq_of_lt ha.1] using ha.2, ?_⟩
    cases hr : m.regs (Fin.ofNat a) with
    | str s => rw [hr] at h; simp [int_nonzero] at h
    | num n => rw [hr] at h; exact ⟨n, rfl, by simpa [int_nonzero] using h⟩
  · rintro ⟨i, hi, n, hn, hne⟩
    refine ⟨i.val, ⟨i.isLt, hi⟩, ?_⟩
    rw [ofNat_val, hn]
    simp [int_nonzero, hne]

theorem visited_length (m : machine) :
    (visited m).length = ((List.range 16).filter (fun i => m.mask.testBit i)).length := by
  rw [visited_eq_selection, selection]
  apply List.Perm.length_eq
  apply List.Perm.filter
  cases m.mode <;> cases m.rev <;> decide

/-! ## Lemmas on grid-add and rank-add -/

theorem num_add_eq (r : reg) (num : Nat) (k : Unit) :
    num_add r num k = (add_operand r num, k) := by
  cases r <;> rfl

theorem ind_add_eq (r : reg) (num ind : Nat) :
    ind_add r num ind = (add_operand r ind, ind + 1) := by
  cases r <;> rfl

theorem add_operand_inj (n : Int) (a c : Nat) (ha : a ≤ 16) (hc : c ≤ 16)
    (h : to_long (to_ulong n + a) = to_long (to_ulong n + c)) : a = c := by
  unfold to_long to_ulong at h
  omega

/-- Over the indices `c, c + 1, ...`, visited in that order with the rank counter starting
at `c`, rank-add writes what grid-add writes. -/
theorem foldl_add_range (n c : Nat) (regs : Fin 16 → reg) :
    ((List.range' c n).foldl (fun st ind => call_fn num_add ind st) (regs, ())).1
      = ((List.range' c n).foldl (fun st ind => call_fn ind_add ind st) (regs, c)).1 := by
  induction n generalizing c regs with
  | zero => rfl
  | succ n ih =>
    simp only [List.range', List.foldl_cons]
    have h1 : call_fn num_add c (regs, ())
        = (Function.update regs (Fin.ofNat c) (add_operand (regs (Fin.ofNat c)) c), ()) := by
      simp [call_fn, num_add_eq]
    have h2 : call_fn ind_add c (regs, c)
        = (Function.update regs (Fin.ofNat c) (add_operand (regs (Fin.ofNat c)) c), c + 1) := by
      simp [call_fn, ind_add_eq]
    rw [h1, h2]
    exact ih (c + 1) _

/-- If grid-add and rank-add write the same registers over distinct integer registers,
the indices visited are `c, c + 1, ...`, where `c` is the start of the rank counter. -/
theorem foldl_add_eq_imp_range (l : List Nat) (c : Nat) (regs : Fin 16 → reg)
    (hnd : l.Nodup) (hlt : ∀ a ∈ l, a < 16)
    (hint : ∀ a ∈ l, ∃ n, regs (Fin.ofNat a) = reg.num n) (hc : c + l.length ≤ 16)
    (h : (l.foldl (fun st ind => call_fn num_add ind st) (regs, ())).1
      = (l.foldl (fun st ind => call_fn ind_add ind st) (regs, c)).1) :
    l = List.range' c l.length := by
  induction l generalizing c regs with
  | nil => rfl
  | cons a l ih =>
    have hnd' := List.nodup_cons.1 hnd
    have ha : a < 16 := hlt a (List.mem_cons_self _ _)
    obtain ⟨n, hn⟩ := hint a (List.mem_cons_self _ _)
    have h1 : call_fn num_add a (regs, ())
        = (Function.update regs (Fin.ofNat a) (reg.num (to_long (to_ulong n + a))), ()) := by
      simp [call_fn, num_add_eq, hn, add_operand]
    have h2 : call_fn ind_add a (regs, c)
        = (Function.update regs (Fin.ofNat a) (reg.num (to_long (to_ulong n + c))), c + 1) := by
      simp [call_fn, ind_add_eq, hn, add_operand]
    rw [List.foldl_cons, List.foldl_cons, h1, h2] at h
    have hun : ∀ {κ : Type} (fn : reg → Nat → κ → reg × κ) (st : (Fin 16 → reg) × κ),
        (l.foldl (fun st ind => call_fn fn ind st) st).1 (Fin.ofNat a) = st.1 (Fin.ofNat a) := by
      intro κ fn st
      apply foldl_call_fn_unchanged
      intro ind hind e
      exfalso
      have := ofNat_inj_of_lt (hlt ind (List.mem_cons_of_mem _ hind)) ha e
      subst this
      exact hnd'.1 hind
    have hat := congrFun h (Fin.ofNat a)
    rw [hun, hun] at hat
    simp only [Function.update_same, reg.num.injEq] at hat
    have hac : a = c := by
      simp only [List.length_cons] at hc
      exact add_operand_inj n a c (by omega) (by omega) hat
    subst hac
    simp only [List.length_cons, List.range']
    congr 1
    apply ih (a + 1) _ hnd'.2 (fun b hb => hlt b (List.mem_cons_of_mem _ hb)) _
      (by simp only [List.length_cons] at hc; omega) h
    intro b hb
    obtain ⟨k, hk⟩ := hint b (List.mem_cons_of_mem _ hb)
    refine ⟨k, ?_⟩
    have hne : (Fin.ofNat b : Fin 16) ≠ Fin.ofNat a := by
      intro e
      have := ofNat_inj_of_lt (hlt b (List.mem_cons_of_mem _ hb)) ha e
      subst this
      exact hnd'.1 hb
    rw [Function.update_noteq hne, hk]

theorem exec_num_add (m : machine) (io : streams) (code : List token) (tok : token)
    (hc : code[m.instr_ptr]? = some tok) (ht : tok.type = TT_NUM_ADD) :
    exec_cycle m io code
      = some ({ m with
          instr_ptr := m.instr_ptr + 1
          regs := ((selection m).foldl (fun st ind => call_fn num_add ind st)
            (m.regs, ())).1 }, io) := by
  have hsel : selection { m with instr_ptr := m.instr_ptr + 1 } = selection m := rfl
  simp [exec_cycle, hc, ht, for_each_reg_selection, hsel]

theorem exec_ind_add (m : machine) (io : streams) (code : List token) (tok : token)
    (hc : code[m.instr_ptr]? = some tok) (ht : tok.type = TT_IND_ADD) :
    exec_cycle m io code
      = some ({ m with
          instr_ptr := m.instr_ptr + 1
          regs := ((selection m).foldl (fun st ind => call_fn ind_add ind st)
            (m.regs, 0)).1 }, io) := by
  have hsel : selection { m with instr_ptr := m.instr_ptr + 1 } = selection m := rfl
  simp [exec_cycle, hc, ht, for_each_reg_selection, hsel]

theorem selection_length_le (m : machine) : (selection m).length ≤ 16 := by
  rw [← visited_eq_selection, visited_length]
  exact (List.length_filter_le _ _).trans (by simp)

/-! ## Lemmas on the lexer and a source that goes on -/

theorem char_at_append_left (p q : List Char) (i : Nat) (h : i < p.length) :
    char_at (p ++ q) i = char_at p i := by
  unfold char_at
  rw [List.getD_append _ _ _ _ h]

theorem char_at_append_length (p : List Char) (c : Char) (s : List Char) :
    char_at (p ++ c :: s) p.length = c := by
  unfold char_at
  rw [List.getD_append_right _ _ _ _ (Nat.le_refl _)]
  simp

/-- The loop of `lex_string` stops between its start and the end of the text, and when it
stops before the end it stops there whatever follows the text. -/
theorem lex_string_loop_spec (l : List Char) (i line : Nat) (data : List Char) :
    i ≤ (lex_string_loop l i line data).1
    ∧ (lex_string_loop l i line data).1 ≤ i + l.length
    ∧ ((lex_string_loop l i line data).1 < i + l.length →
        ∀ q, lex_string_loop (l ++ q) i line data = lex_string_loop l i line data) := by
  induction l generalizing i line data with
  | nil => simp [lex_string_loop]
  | cons c cs ih =>
    simp only [lex_string_loop, List.cons_append, List.length_cons]
    by_cases h1 : c = NEWLINE
    · simp only [h1, if_true]
      obtain ⟨a, b, d⟩ := ih (i + 1) (line + 1) (data ++ [NEWLINE])
      exact ⟨by omega, by omega, fun h q => d (by omega) q⟩
    · by_cases h2 : c = DQUOTE
      · subst h2
        simp [h1]
      · simp only [h1, h2, if_false]
        obtain ⟨a, b, d⟩ := ih (i + 1) line (data ++ [c])
        exact ⟨by omega, by omega, fun h q => d (by omega) q⟩

/-- Without a closing quote the loop of `lex_string` runs to the end of the text. -/
theorem lex_string_loop_no_quote (l : List Char) (i line : Nat) (data : List Char)
    (h : DQUOTE ∉ l) : (lex_string_loop l i line data).1 = i + l.length := by
  induction l generalizing i line data with
  | nil => simp [lex_string_loop]
  | cons c cs ih =>
    have hc : c ≠ DQUOTE := fun e => h (e ▸ List.mem_cons_self _ _)
    have hcs : DQUOTE ∉ cs := fun e => h (List.mem_cons_of_mem _ e)
    simp only [lex_string_loop, List.length_cons]
    by_cases h1 : c = NEWLINE
    · simp only [h1, if_true]; rw [ih _ _ _ hcs]; omega
    · simp only [h1, hc, if_false]; rw [ih _ _ _ hcs]; omega

theorem lex_num_loop_spec (l : List Char) (i : Nat) (data : List Char) (r : Nat × List Char)
    (h : lex_num_loop l i data = some r) :
    i ≤ r.1 ∧ r.1 ≤ i + l.length
    ∧ (r.1 < i + l.length → ∀ q, lex_num_loop (l ++ q) i data = some r) := by
  induction l generalizing i data with
  | nil =>
    simp only [lex_num_loop, Option.some.injEq] at h
    subst h
    simp
  | cons c cs ih =>
    simp only [lex_num_loop, List.cons_append, List.length_cons] at h ⊢
    by_cases h1 : c = '$'
    · simp only [h1, if_true, Option.some.injEq] at h ⊢
      subst h
      simp
    · by_cases h2 : (!isdigit c) = true
      · simp [h1, h2] at h
      · simp only [h1, h2, if_false] at h ⊢
        obtain ⟨a, b, d⟩ := ih (i + 1) (data ++ [c]) h
        exact ⟨by omega, by omega, fun h q => d (by omega) q⟩
theorem lex_string_append (p q : List Char) (j line : Nat) (tok : token) (i' line' : Nat)
    (e : List diag) (hj : j ≤ p.length)
    (h : lex_string p j line = (some tok, i', line', e)) :
    j ≤ i' ∧ i' < p.length ∧ lex_string (p ++ q) j line = (some tok, i', line', e) := by
  obtain ⟨a, b, d⟩ := lex_string_loop_spec (p.drop j) j line []
  have hlen : j + (p.drop j).length = p.length := by simp; omega
  rw [hlen] at b d
  unfold lex_string at h ⊢
  simp only at h ⊢
  by_cases hr : (lex_string_loop (p.drop j) j line []).1 = p.length
  · rw [if_pos hr] at h; cases h
  · rw [if_neg hr] at h
    have hlt : (lex_string_loop (p.drop j) j line []).1 < p.length := by omega
    rw [List.drop_append_of_le_length hj, d hlt q]
    have hne : ¬ ((lex_string_loop (p.drop j) j line []).1 = (p ++ q).length) := by
      rw [List.length_append]; omega
    rw [if_neg hne]
    simp only [Prod.mk.injEq] at h
    obtain ⟨h1, h2, h3, h4⟩ := h
    subst h2 h3 h4
    cases h1
    exact ⟨a, hlt, rfl⟩

theorem lex_char_append (p q : List Char) (j line : Nat) (tok : token) (i' line' : Nat)
    (e : List diag) (hj : j ≤ p.length)
    (h : lex_char p j line = (some tok, i', line', e)) :
    j ≤ i' ∧ i' < p.length ∧ lex_char (p ++ q) j line = (some tok, i', line', e) := by
  unfold lex_char at h ⊢
  by_cases hr : j = p.length
  · rw [if_pos hr] at h; cases h
  · rw [if_neg hr] at h
    have hlt : j < p.length := by omega
    have hne : ¬ (j = (p ++ q).length) := by rw [List.length_append]; omega
    rw [if_neg hne, char_at_append_left p q j hlt]
    simp only at h ⊢
    split at h <;>
      · simp only [Prod.mk.injEq] at h
        obtain ⟨h1, h2, h3, h4⟩ := h
        subst h2
        simp_all

theorem lex_num_append (p q : List Char) (j line : Nat) (tok : token) (i' line' : Nat)
    (e : List diag) (hj : j ≤ p.length)
    (h : lex_num p j line = (some tok, i', line', e)) :
    j ≤ i' ∧ i' < p.length ∧ lex_num (p ++ q) j line = (some tok, i', line', e) := by
  have hlen : j + (p.drop j).length = p.length := by simp; omega
  unfold lex_num at h ⊢
  cases hl : lex_num_loop (p.drop j) j [] with
  | none => rw [hl] at h; cases h
  | some r =>
    obtain ⟨a, b, d⟩ := lex_num_loop_spec (p.drop j) j [] r hl
    rw [hlen] at b d
    rw [hl] at h
    simp only at h
    by_cases hr : r.1 = p.length
    · rw [if_pos hr] at h; cases h
    · rw [if_neg hr] at h
      have hlt : r.1 < p.length := by omega
      rw [List.drop_append_of_le_length hj, d hlt q]
      have hne : ¬ (r.1 = (p ++ q).length) := by rw [List.length_append]; omega
      simp only [if_neg hne]
      simp only [Prod.mk.injEq] at h
      obtain ⟨h1, h2, h3, h4⟩ := h
      subst h2 h3 h4
      cases h1
      exact ⟨a, hlt, rfl⟩
theorem dquote_facts : DQUOTE ≠ NEWLINE ∧ isspace DQUOTE = false
    ∧ lex_second DQUOTE [('|', TT_OR)] = none := by
  decide

/-- One pass through the loop body of `lex` inside `p`, when the source goes on after `p`
with a double quote: either the pass is the same and stays inside `p`, or it fails. -/
theorem lex_step_append (p s : List Char) (g i line : Nat) (toks : List token)
    (cerr : List diag) (hi : i < p.length) (i' line' : Nat) (toks' : List token)
    (cerr' : List diag)
    (h : lex_step p g i line toks cerr = lex_step_result.next i' line' toks' cerr') :
    (i ≤ i' ∧ i' < p.length
      ∧ lex_step (p ++ DQUOTE :: s) g i line toks cerr
          = lex_step_result.next i' line' toks' cerr')
    ∨ (∃ c, lex_step (p ++ DQUOTE :: s) g i line toks cerr = lex_step_result.fail c) := by
  have hlen : (p ++ DQUOTE :: s).length = p.length + (s.length + 1) := by simp
  simp only [lex_step, char_at_append_left p (DQUOTE :: s) i hi] at h ⊢
  by_cases c : char_at p i = NEWLINE
  rotate_left
  rw [if_neg c] at h ⊢; clear c
  by_cases c : isspace (char_at p i) = true
  rotate_left
  rw [if_neg c] at h ⊢; clear c
  by_cases c : char_at p i = DQUOTE
  rotate_left
  rw [if_neg c] at h ⊢; clear c
  by_cases c : char_at p i = SQUOTE
  rotate_left
  rw [if_neg c] at h ⊢; clear c
  by_cases c : char_at p i = '$'
  rotate_left
  rw [if_neg c] at h ⊢; clear c
  by_cases c : '0' ≤ char_at p i ∧ char_at p i ≤ '9'
  rotate_left
  rw [if_neg c] at h ⊢; clear c
  by_cases c : 'a' ≤ char_at p i ∧ char_at p i ≤ 'f'
  rotate_left
  rw [if_neg c] at h ⊢; clear c
  by_cases c : char_at p i = '|'
  rotate_left
  rw [if_neg c] at h ⊢; clear c
  by_cases c : char_at p i = BACKTICK
  rotate_left
  rw [if_neg c] at h ⊢; clear c
  by_cases c : char_at p i = 'A'
  rotate_left
  rw [if_neg c] at h ⊢; clear c
  by_cases c : char_at p i = '%'
  rotate_left
  rw [if_neg c] at h ⊢; clear c
  by_cases c : char_at p i = '['
  rotate_left
  rw [if_neg c] at h ⊢; clear c
  by_cases c : char_at p i = 'j'
  rotate_left
  rw [if_neg c] at h ⊢; clear c
  by_cases c : char_at p i = '?'
  rotate_left
  rw [if_neg c] at h ⊢; clear c
  all_goals try rw [if_pos c] at h ⊢
  -- the single-character operators
  · cases hsec : lex_second (char_at p i) lex_single with
    | none => rw [hsec] at h; cases h
    | some ty =>
      rw [hsec] at h
      cases h
      exact Or.inl ⟨Nat.le_refl _, hi, rfl⟩
  -- newline
  · cases h
    exact Or.inl ⟨Nat.le_refl _, hi, rfl⟩
  -- white space
  · cases h
    exact Or.inl ⟨Nat.le_refl _, hi, rfl⟩
  -- string literal
  · rcases hls : lex_string p (i + 1) line with ⟨_ | tok, i2, line2, e⟩
    · rw [hls] at h; cases h
    · rw [hls] at h
      cases h
      obtain ⟨a, b, d⟩ := lex_string_append p (DQUOTE :: s) (i + 1) line tok _ _ _ hi hls
      rw [d]
      exact Or.inl ⟨by omega, b, rfl⟩
  -- character literal
  · rcases hls : lex_char p (i + 1) line with ⟨_ | tok, i2, line2, e⟩
    · rw [hls] at h; cases h
    · rw [hls] at h
      cases h
      obtain ⟨a, b, d⟩ := lex_char_append p (DQUOTE :: s) (i + 1) line tok _ _ _ hi hls
      rw [d]
      exact Or.inl ⟨by omega, b, rfl⟩
  -- number literal
  · rcases hls : lex_num p (i + 1) line with ⟨_ | tok, i2, line2, e⟩
    · rw [hls] at h; cases h
    · rw [hls] at h
      cases h
      obtain ⟨a, b, d⟩ := lex_num_append p (DQUOTE :: s) (i + 1) line tok _ _ _ hi hls
      rw [d]
      exact Or.inl ⟨by omega, b, rfl⟩
  -- the hex digits
  · cases h
    exact Or.inl ⟨Nat.le_refl _, hi, rfl⟩
  · cases h
    exact Or.inl ⟨Nat.le_refl _, hi, rfl⟩
  -- the column and row toggles
  · by_cases e : i = p.length - 1
    · rw [if_pos e] at h; cases h
    · rw [if_neg e] at h
      have hlt : i + 1 < p.length := by omega
      have hne : ¬ (i = (p ++ DQUOTE :: s).length - 1) := by rw [hlen]; omega
      rw [if_neg hne, char_at_append_left p (DQUOTE :: s) (i + 1) hlt]
      by_cases e2 : char_at p (i + 1) < '0' ∨ char_at p (i + 1) > '3'
      · rw [if_pos e2] at h; cases h
      · rw [if_neg e2] at h ⊢
        cases h
        exact Or.inl ⟨by omega, hlt, rfl⟩
  · by_cases e : i = p.length - 1
    · rw [if_pos e] at h; cases h
    · rw [if_neg e] at h
      have hlt : i + 1 < p.length := by omega
      have hne : ¬ (i = (p ++ DQUOTE :: s).length - 1) := by rw [hlen]; omega
      rw [if_neg hne, char_at_append_left p (DQUOTE :: s) (i + 1) hlt]
      by_cases e2 : char_at p (i + 1) < '0' ∨ char_at p (i + 1) > '3'
      · rw [if_pos e2] at h; cases h
      · rw [if_neg e2] at h ⊢
        cases h
        exact Or.inl ⟨by omega, hlt, rfl⟩
  -- the full toggle
  · cases h
    exact Or.inl ⟨Nat.le_refl _, hi, rfl⟩
  -- the two-character operators
  · by_cases e : i + 1 = p.length
    · rw [if_pos e] at h; cases h
    · rw [if_neg e] at h
      have hlt : i + 1 < p.length := by omega
      have hne : ¬ (i + 1 = (p ++ DQUOTE :: s).length) := by rw [hlen]; omega
      rw [if_neg hne, char_at_append_left p (DQUOTE :: s) (i + 1) hlt]
      cases hsec : lex_second (char_at p (i + 1)) [('+', TT_NUM_ADD), ('-', TT_NUM_SUB), ('*', TT_NUM_MUL), ('/', TT_NUM_DIV)] with
      | none => rw [hsec] at h; cases h
      | some ty =>
        rw [hsec] at h
        cases h
        exact Or.inl ⟨by omega, hlt, rfl⟩
  · by_cases e : i + 1 = p.length
    · rw [if_pos e] at h; cases h
    · rw [if_neg e] at h
      have hlt : i + 1 < p.length := by omega
      have hne : ¬ (i + 1 = (p ++ DQUOTE :: s).length) := by rw [hlen]; omega
      rw [if_neg hne, char_at_append_left p (DQUOTE :: s) (i + 1) hlt]
      cases hsec : lex_second (char_at p (i + 1)) [('+', TT_IND_ADD), ('-', TT_IND_SUB), ('*', TT_IND_MUL), ('/', TT_IND_DIV)] with
      | none => rw [hsec] at h; cases h
      | some ty =>
        rw [hsec] at h
        cases h
        exact Or.inl ⟨by omega, hlt, rfl⟩
  · by_cases e : i + 1 = p.length
    · rw [if_pos e] at h; cases h
    · rw [if_neg e] at h
      have hlt : i + 1 < p.length := by omega
      have hne : ¬ (i + 1 = (p ++ DQUOTE :: s).length) := by rw [hlen]; omega
      rw [if_neg hne, char_at_append_left p (DQUOTE :: s) (i + 1) hlt]
      cases hsec : lex_second (char_at p (i + 1)) [('>', TT_POP_JMP), ('?', TT_POP_JMP_COND), ('<', TT_PUSH_JMP)] with
      | none => rw [hsec] at h; cases h
      | some ty =>
        rw [hsec] at h
        cases h
        exact Or.inl ⟨by omega, hlt, rfl⟩
  -- the question mark, which lets the lexer go on at the end of `p`
  · have hne : ¬ (i + 1 = (p ++ DQUOTE :: s).length) := by rw [hlen]; omega
    rw [if_neg hne]
    by_cases e : i + 1 = p.length
    · right
      rw [e, char_at_append_length, dquote_facts.2.2]
      exact ⟨_, rfl⟩
    · rw [if_neg e] at h
      have hlt : i + 1 < p.length := by omega
      rw [char_at_append_left p (DQUOTE :: s) (i + 1) hlt]
      cases hsec : lex_second (char_at p (i + 1)) [('|', TT_OR)] with
      | none => rw [hsec] at h; cases h
      | some ty =>
        rw [hsec] at h
        cases h
        exact Or.inl ⟨by omega, hlt, rfl⟩
/-- The pass through the loop body at the double quote that follows `p`, when no double
quote follows it: the string is unterminated and `lex` returns `std::nullopt`. -/
theorem lex_step_at_quote (p s : List Char) (g line : Nat) (toks : List token)
    (cerr : List diag) (hs : DQUOTE ∉ s) :
    lex_step (p ++ DQUOTE :: s) g p.length line toks cerr
      = lex_step_result.fail (cerr ++ [(line, "unterminated string!")]) := by
  have hdrop : (p ++ DQUOTE :: s).drop (p.length + 1) = s := by
    rw [List.drop_append_eq_append_drop]
    simp
  have hloop := lex_string_loop_no_quote s (p.length + 1) line [] hs
  have hstr : lex_string (p ++ DQUOTE :: s) (p.length + 1) line
      = (none, (lex_string_loop s (p.length + 1) line []).1,
          (lex_string_loop s (p.length + 1) line []).2.1, [(line, "unterminated string!")]) := by
    unfold lex_string
    rw [hdrop]
    simp only
    rw [if_pos (by rw [hloop]; simp; omega)]
  simp only [lex_step, char_at_append_length]
  rw [if_neg dquote_facts.1, if_neg (by rw [dquote_facts.2.1]; decide), if_pos True.intro, hstr]

/-- If `lex` gets through `p`, then on `p` followed by a double quote and a text without
double quote it returns `std::nullopt`, given fuel for the rest of the source. -/
theorem lex_loop_append (p s : List Char) (g : Nat) (hs : DQUOTE ∉ s) (f' : Nat) :
    ∀ (f i line : Nat) (toks : List token) (cerr c : List diag) (t : List token),
      i ≤ p.length →
      lex_loop p g f i line toks cerr = some { cerr := c, toks := some t } →
      p.length + (s.length + 1) - i ≤ f' →
      ∃ c', lex_loop (p ++ DQUOTE :: s) g f' i line toks cerr
        = some { cerr := c', toks := none } := by
  have hlen : (p ++ DQUOTE :: s).length = p.length + (s.length + 1) := by simp
  induction f' with
  | zero => intro f i line toks cerr c t hi _ hf; omega
  | succ f' ih =>
    intro f i line toks cerr c t hi h hf
    have hlt : i < (p ++ DQUOTE :: s).length := by rw [hlen]; omega
    simp only [lex_loop, if_pos hlt]
    rcases Nat.lt_or_ge i p.length with hip | hip
    · cases f with
      | zero => simp [lex_loop, hip] at h
      | succ f =>
        simp only [lex_loop, if_pos hip] at h
        cases hst : lex_step p g i line toks cerr with
        | fail e => rw [hst] at h; simp at h
        | next i' line' toks' cerr' =>
          rw [hst] at h
          simp only at h
          rcases lex_step_append p s g i line toks cerr hip i' line' toks' cerr' hst with
            ⟨h1, h2, h3⟩ | ⟨e, h3⟩
          · rw [h3]
            exact ih f (i' + 1) line' toks' cerr' c t (by omega) h (by omega)
          · rw [h3]
            exact ⟨_, rfl⟩
    · have hieq : i = p.length := by omega
      subst hieq
      rw [lex_step_at_quote p s g line toks cerr hs]
      exact ⟨_, rfl⟩

/-! ## Lemmas on the instruction pointer -/

/-- With the fetch in bounds `exec_cycle` returns, and the instruction pointer it leaves is
the old one plus one or a target that was on top of the jump stack and lies below the
length of the instruction list. -/
theorem exec_cycle_ptr (m : machine) (io : streams) (code : List token)
    (h : m.instr_ptr < code.length) :
    ∃ r, exec_cycle m io code = some r
      ∧ (r.1.instr_ptr = m.instr_ptr + 1
        ∨ (r.1.instr_ptr < code.length
          ∧ ∃ rest, m.jumps = (r.1.instr_ptr : Int) :: rest)) := by
  obtain ⟨tok, hc⟩ : ∃ tok, code[m.instr_ptr]? = some tok :=
    ⟨code[m.instr_ptr], List.getElem?_eq_getElem h⟩
  simp only [exec_cycle, with_scalar, hc]
  by_cases c : TT_TOGGLE_BIT_0 ≤ tok.type ∧ tok.type ≤ TT_TOGGLE_BIT_F
  rotate_left
  rw [if_neg c]; clear c
  by_cases c : TT_TOGGLE_ROW_0 ≤ tok.type ∧ tok.type ≤ TT_TOGGLE_ROW_3
  rotate_left
  rw [if_neg c]; clear c
  by_cases c : TT_TOGGLE_COL_0 ≤ tok.type ∧ tok.type ≤ TT_TOGGLE_COL_3
  rotate_left
  rw [if_neg c]; clear c
  by_cases c : tok.type = TT_TOGGLE_MAT
  rotate_left
  rw [if_neg c]; clear c
  by_cases c : tok.type = TT_LIT_STR ∨ tok.type = TT_LIT_CH ∨ tok.type = TT_LIT_NUM
  rotate_left
  rw [if_neg c]; clear c
  by_cases c : tok.type = TT_OP_MODE_COL
  rotate_left
  rw [if_neg c]; clear c
  by_cases c : tok.type = TT_OP_MODE_ROW
  rotate_left
  rw [if_neg c]; clear c
  by_cases c : tok.type = TT_OP_ORDER_REV
  rotate_left
  rw [if_neg c]; clear c
  by_cases c : tok.type = TT_POP_ATOM
  rotate_left
  rw [if_neg c]; clear c
  by_cases c : tok.type = TT_PUSH_ATOM
  rotate_left
  rw [if_neg c]; clear c
  by_cases c : tok.type = TT_WRITE_STDOUT
  rotate_left
  rw [if_neg c]; clear c
  by_cases c : tok.type = TT_WRITE_STDOUT_NEWLINE
  rotate_left
  rw [if_neg c]; clear c
  by_cases c : tok.type = TT_READ_STDIN
  rotate_left
  rw [if_neg c]; clear c
  by_cases c : tok.type = TT_STR_TO_INT
  rotate_left
  rw [if_neg c]; clear c
  by_cases c : tok.type = TT_INT_TO_STR
  rotate_left
  rw [if_neg c]; clear c
  by_cases c : tok.type = TT_ADD
  rotate_left
  rw [if_neg c]; clear c
  by_cases c : tok.type = TT_SUB
  rotate_left
  rw [if_neg c]; clear c
  by_cases c : tok.type = TT_MUL
  rotate_left
  rw [if_neg c]; clear c
  by_cases c : tok.type = TT_DIV
  rotate_left
  rw [if_neg c]; clear c
  by_cases c : tok.type = TT_NUM_ADD
  rotate_left
  rw [if_neg c]; clear c
  by_cases c : tok.type = TT_NUM_SUB
  rotate_left
  rw [if_neg c]; clear c
  by_cases c : tok.type = TT_NUM_MUL
  rotate_left
  rw [if_neg c]; clear c
  by_cases c : tok.type = TT_NUM_DIV
  rotate_left
  rw [if_neg c]; clear c
  by_cases c : tok.type = TT_IND_ADD
  rotate_left
  rw [if_neg c]; clear c
  by_cases c : tok.type = TT_IND_SUB
  rotate_left
  rw [if_neg c]; clear c
  by_cases c : tok.type = TT_IND_MUL
  rotate_left
  rw [if_neg c]; clear c
  by_cases c : tok.type = TT_IND_DIV
  rotate_left
  rw [if_neg c]; clear c
  by_cases c : tok.type = TT_POP_JMP
  rotate_left
  rw [if_neg c]; clear c
  by_cases c : tok.type = TT_POP_JMP_COND
  rotate_left
  rw [if_neg c]; clear c
  by_cases c : tok.type = TT_PUSH_JMP
  rotate_left
  rw [if_neg c]; clear c
  by_cases c : tok.type = TT_SAVE_JMP
  rotate_left
  rw [if_neg c]; clear c
  by_cases c : tok.type = TT_EQUAL
  rotate_left
  rw [if_neg c]; clear c
  by_cases c : tok.type = TT_GREQUAL
  rotate_left
  rw [if_neg c]; clear c
  by_cases c : tok.type = TT_GREATER
  rotate_left
  rw [if_neg c]; clear c
  by_cases c : tok.type = TT_LESS
  rotate_left
  rw [if_neg c]; clear c
  by_cases c : tok.type = TT_LEQUAL
  rotate_left
  rw [if_neg c]; clear c
  by_cases c : tok.type = TT_AND
  rotate_left
  rw [if_neg c]; clear c
  by_cases c : tok.type = TT_OR
  rotate_left
  rw [if_neg c]; clear c
  by_cases c : tok.type = TT_NOT
  rotate_left
  rw [if_neg c]; clear c
  all_goals try rw [if_pos c]
  all_goals repeat' split
  all_goals first
    | exact ⟨_, rfl, Or.inl rfl⟩
    | skip
  -- jump-pop with a target in range
  · rename_i jmp rest hj hr
    have h0 : 0 ≤ jmp := by omega
    refine ⟨_, rfl, Or.inr ⟨?_, rest, ?_⟩⟩
    · show jmp.toNat < code.length
      omega
    · show m.jumps = ((jmp.toNat : Nat) : Int) :: rest
      rw [Int.toNat_of_nonneg h0]
      exact hj
  -- jump-pop-cond with a target in range and a non-zero atom
  · rename_i jmp rest top arest hj ha hr hcond
    have h0 : 0 ≤ jmp := by omega
    refine ⟨_, rfl, Or.inr ⟨?_, rest, ?_⟩⟩
    · show jmp.toNat < code.length
      omega
    · show m.jumps = ((jmp.toNat : Nat) : Int) :: rest
      rw [Int.toNat_of_nonneg h0]
      exact hj
/-- The run loop never fetches out of bounds and keeps the instruction pointer at most
the length of the instruction list. -/
theorem run_upto_in_bounds (code : List token) (k : Nat) (m : machine) (io : streams)
    (h : m.instr_ptr ≤ code.length) :
    ∃ r, run_upto code k m io = some r ∧ r.1.instr_ptr ≤ code.length := by
  induction k generalizing m io with
  | zero => exact ⟨_, rfl, h⟩
  | succ k ih =>
    simp only [run_upto]
    by_cases hk : io.sigfpe = true
    · rw [if_pos hk]
      exact ⟨_, rfl, h⟩
    by_cases hlt : m.instr_ptr < code.length
    · obtain ⟨r, hr, hp⟩ := exec_cycle_ptr m io code hlt
      rw [if_neg hk, if_pos hlt, hr]
      exact ih r.1 r.2 (by rcases hp with hp | hp <;> omega)
    · rw [if_neg hk, if_neg hlt]
      exact ⟨_, rfl, h⟩

/-! ## Theorems -/

/-- C1: for every mask, axis and reversed flag, `for_each_reg` calls the callback exactly
on the selection, the fixed 16-index order of the mode filtered to the indices whose mask
bit is set; each index is visited once, the register passed is the register with that
index and the index passed is its grid id; and whatever the callback, the traversal is
the left fold of the callback over the selection. -/
theorem C1_for_each_reg_visits_selection (m : machine) :
    (for_each_reg m record []).2 = (selection m).map (fun i => (i, m.regs (Fin.ofNat i)))
    ∧ (for_each_reg m record []).1 = m.regs
    ∧ (selection m).Nodup
    ∧ (∀ i, i ∈ selection m ↔ (i < 16 ∧ m.mask.testBit i = true))
    ∧ (∀ (κ : Type) (fn : reg → Nat → κ → reg × κ) (k : κ),
        for_each_reg m fn k
          = (selection m).foldl (fun st ind => call_fn fn ind st) (m.regs, k)) := by
  refine ⟨?_, ?_, selection_nodup m, mem_selection m, fun κ fn k => ?_⟩
  · rw [for_each_reg_selection, foldl_record]; simp
  · rw [for_each_reg_selection, foldl_record]
  · exact for_each_reg_selection m fn k

/-- C2: lexing a toggle instruction gives exactly one token, and executing that token
leaves the machine and the streams as they were except for the instruction pointer, which
advances by one, and the mask, of which exactly the bits of the named registers are
flipped: bit `hexvalue(c)` for a hex digit `c`, bits `d, d+4, d+8, d+12` for `|d`, bits
`4r .. 4r+3` for a backtick followed by `r`, all 16 bits for `A`. -/
theorem C2_toggle (src : List Char) (named : List Nat) (garbage : Nat)
    (h : (src, named) ∈ toggle_table) :
    ∃ tok, lex src garbage = some { cerr := [], toks := some [tok] }
      ∧ ∀ (m : machine) (io : streams) (code : List token),
          code[m.instr_ptr]? = some tok →
          ∃ mask', exec_cycle m io code
                = some ({ m with instr_ptr := m.instr_ptr + 1, mask := mask' }, io)
            ∧ mask' < 2 ^ 16
            ∧ ∀ i, i < 16 → mask'.testBit i = xor (m.mask.testBit i) (decide (i ∈ named)) := by
  revert src named
  have key : ∀ p ∈ toggle_table,
      ∃ tok, lex p.1 garbage = some { cerr := [], toks := some [tok] }
      ∧ ∀ (m : machine) (io : streams) (code : List token),
          code[m.instr_ptr]? = some tok →
          ∃ mask', exec_cycle m io code
                = some ({ m with instr_ptr := m.instr_ptr + 1, mask := mask' }, io)
            ∧ mask' < 2 ^ 16
            ∧ ∀ i, i < 16 → mask'.testBit i = xor (m.mask.testBit i) (decide (i ∈ p.2)) := by
    simp only [toggle_table, List.forall_mem_cons]
    repeat' apply And.intro
    all_goals first
      | (refine toggle_case _ _ ?_ (fun g => ?_) ?_ ?_ garbage
         rotate_left
         exact rfl
         decide
         decide)
      | simp
  intro src named h
  exact key (src, named) h

/-- C2 at the column toggle `|2`, which names the registers 2, 6, 10 and 14. -/
theorem C2_toggle_witness :
    (['|', '2'], [2, 6, 10, 14]) ∈ toggle_table
    ∧ ∃ tok, lex ['|', '2'] 0 = some { cerr := [], toks := some [tok] }
      ∧ ∀ (m : machine) (io : streams) (code : List token),
          code[m.instr_ptr]? = some tok →
          ∃ mask', exec_cycle m io code
                = some ({ m with instr_ptr := m.instr_ptr + 1, mask := mask' }, io)
            ∧ mask' < 2 ^ 16
            ∧ ∀ i, i < 16 →
                mask'.testBit i = xor (m.mask.testBit i) (decide (i ∈ [2, 6, 10, 14])) :=
  ⟨by decide, C2_toggle ['|', '2'] [2, 6, 10, 14] 0 (by decide)⟩

/-- C3: for every machine with a 16-bit mask and every toggle instruction (single bit,
row, column or full matrix), executing that toggle twice in a row gives back the mask
the machine started with; nothing but the instruction pointer has changed. -/
theorem C3_toggle_twice (m : machine) (io : streams) (code : List token) (t1 t2 : token)
    (hmask : m.mask < 2 ^ 16)
    (ht : TT_TOGGLE_BIT_0 ≤ t1.type ∧ t1.type ≤ TT_TOGGLE_MAT)
    (h1 : code[m.instr_ptr]? = some t1) (h2 : code[m.instr_ptr + 1]? = some t2)
    (hsame : t2.type = t1.type) :
    ∃ m1, exec_cycle m io code = some (m1, io)
      ∧ m1.mask = (m.mask ^^^ toggle_word t1.type) % 2 ^ 16
      ∧ exec_cycle m1 io code = some ({ m with instr_ptr := m.instr_ptr + 2 }, io) := by
  refine ⟨_, exec_cycle_toggle m io code t1 h1 ht, rfl, ?_⟩
  rw [exec_cycle_toggle _ io code t2 h2 (by rw [hsame]; exact ht), hsame]
  simp only [toggle_twice m.mask _ hmask (toggle_word_lt _ ht)]

/-- C3 at the mask `0x00f3` and the column toggle `|2` executed twice. -/
theorem C3_toggle_twice_witness :
    ∃ m1, exec_cycle { machine_init with mask := 0x00f3 } no_streams C3_code
        = some (m1, no_streams)
      ∧ m1.mask = (0x00f3 ^^^ toggle_word TT_TOGGLE_COL_2) % 2 ^ 16
      ∧ exec_cycle m1 no_streams C3_code
          = some ({ machine_init with mask := 0x00f3, instr_ptr := 2 }, no_streams) :=
  C3_toggle_twice { machine_init with mask := 0x00f3 } no_streams C3_code
    ⟨TT_TOGGLE_COL_2, [], 1⟩ ⟨TT_TOGGLE_COL_2, [], 1⟩ (by decide) (by decide) rfl rfl rfl

/-- C4 as stated fails: with registers 0, 1, 4 and 5 selected, the row-reversed traversal
visits 1, 0, 5, 4, not the reverse 5, 4, 1, 0 of the row-forward traversal 0, 1, 4, 5; the
column-reversed traversal visits 4, 0, 5, 1, not the reverse 5, 1, 4, 0 of the
column-forward traversal 0, 4, 1, 5. -/
theorem C4_counterexample :
    visited { C4_machine with mode := op_mode.OM_ROW, rev := false } = [0, 1, 4, 5]
    ∧ visited { C4_machine with mode := op_mode.OM_ROW, rev := true } = [1, 0, 5, 4]
    ∧ visited { C4_machine with mode := op_mode.OM_ROW, rev := true }
        ≠ (visited { C4_machine with mode := op_mode.OM_ROW, rev := false }).reverse
    ∧ visited { C4_machine with mode := op_mode.OM_COL, rev := false } = [0, 4, 1, 5]
    ∧ visited { C4_machine with mode := op_mode.OM_COL, rev := true } = [4, 0, 5, 1]
    ∧ visited { C4_machine with mode := op_mode.OM_COL, rev := true }
        ≠ (visited { C4_machine with mode := op_mode.OM_COL, rev := false }).reverse := by
  decide

/-- C4, amended: for every mask, the row-reversed traversal visits the same registers as
the row-forward traversal, rows in the same ascending order and the registers of each row
in the opposite order: it is the forward sequence with the segment of each row reversed
in place. Likewise the column-reversed traversal is the column-forward sequence with the
segment of each column reversed in place. -/
theorem C4_reversed_within_rows (m : machine) :
    (visited { m with mode := op_mode.OM_ROW, rev := true }
        = ((visited { m with mode := op_mode.OM_ROW, rev := false }).filter
              (fun i => i / 4 = 0)).reverse
          ++ ((visited { m with mode := op_mode.OM_ROW, rev := false }).filter
              (fun i => i / 4 = 1)).reverse
          ++ ((visited { m with mode := op_mode.OM_ROW, rev := false }).filter
              (fun i => i / 4 = 2)).reverse
          ++ ((visited { m with mode := op_mode.OM_ROW, rev := false }).filter
              (fun i => i / 4 = 3)).reverse)
    ∧ (visited { m with mode := op_mode.OM_COL, rev := true }
        = ((visited { m with mode := op_mode.OM_COL, rev := false }).filter
              (fun i => i % 4 = 0)).reverse
          ++ ((visited { m with mode := op_mode.OM_COL, rev := false }).filter
              (fun i => i % 4 = 1)).reverse
          ++ ((visited { m with mode := op_mode.OM_COL, rev := false }).filter
              (fun i => i % 4 = 2)).reverse
          ++ ((visited { m with mode := op_mode.OM_COL, rev := false }).filter
              (fun i => i % 4 = 3)).reverse)
    ∧ (visited { m with mode := op_mode.OM_ROW, rev := true }).Perm
        (visited { m with mode := op_mode.OM_ROW, rev := false })
    ∧ (visited { m with mode := op_mode.OM_COL, rev := true }).Perm
        (visited { m with mode := op_mode.OM_COL, rev := false }) := by
  simp only [visited_eq_selection, selection, traversal_order]
  refine ⟨?_, ?_, ?_, ?_⟩
  · rw [reverse_part _ _ _ [0, 1, 2, 3] (by decide),
      reverse_part _ _ _ [4, 5, 6, 7] (by decide),
      reverse_part _ _ _ [8, 9, 10, 11] (by decide),
      reverse_part _ _ _ [12, 13, 14, 15] (by decide), ← List.filter_append,
      ← List.filter_append, ← List.filter_append]
    rfl
  · rw [reverse_part _ _ _ [0, 4, 8, 12] (by decide),
      reverse_part _ _ _ [1, 5, 9, 13] (by decide),
      reverse_part _ _ _ [2, 6, 10, 14] (by decide),
      reverse_part _ _ _ [3, 7, 11, 15] (by decide), ← List.filter_append,
      ← List.filter_append, ← List.filter_append]
    rfl
  · exact List.Perm.filter _ (by decide)
  · exact List.Perm.filter _ (by decide)

/-- C5 as stated fails: in the initial machine register 0 is a text register holding the
empty text, so it is not true that every register is an integer register holding 0. -/
theorem C5_counterexample :
    machine_init.regs 0 = reg.str [] ∧ (machine_init.regs 0).type = reg_type.RT_STR
    ∧ ¬ (∀ i, machine_init.regs i = reg.num 0) := by
  refine ⟨rfl, rfl, fun h => ?_⟩
  have := h 0
  simp [machine_init] at this

/-- C5, amended: in the initial machine built by `main` every one of the 16 registers is a
text register holding the empty text, the mask is 0, the instruction pointer 0, the axis
row, reversed off, and both stacks are empty. -/
theorem C5_initial_state :
    (∀ i, machine_init.regs i = reg.str [] ∧ (machine_init.regs i).type = reg_type.RT_STR)
    ∧ machine_init.mask = 0 ∧ machine_init.instr_ptr = 0
    ∧ machine_init.mode = op_mode.OM_ROW ∧ machine_init.rev = false
    ∧ machine_init.atoms = [] ∧ machine_init.jumps = [] :=
  ⟨fun _ => ⟨rfl, rfl⟩, rfl, rfl, rfl, rfl, rfl, rfl⟩

/-- C6: a stack-starved instruction only advances the instruction pointer by one and
leaves registers, mask, mode, reversed flag, both stacks and the streams as they were:
pop-atom, add, sub, mul, div, equal, greater-equal, greater, less and less-equal on an
empty atom stack; jump-pop on an empty jump stack; jump-pop-cond when the jump stack or
the atom stack is empty (the other stack is not consumed). -/
theorem C6_stack_starved (m : machine) (io : streams) (code : List token) (tok : token)
    (hc : code[m.instr_ptr]? = some tok)
    (h : (tok.type ∈ atom_consumers ∧ m.atoms = [])
      ∨ (tok.type = TT_POP_JMP ∧ m.jumps = [])
      ∨ (tok.type = TT_POP_JMP_COND ∧ (m.jumps = [] ∨ m.atoms = []))) :
    exec_cycle m io code = some ({ m with instr_ptr := m.instr_ptr + 1 }, io) := by
  rcases h with ⟨ht, ha⟩ | ⟨ht, hj⟩ | ⟨ht, hj | ha⟩
  · simp only [atom_consumers, List.mem_cons, List.mem_singleton, List.not_mem_nil,
      or_false] at ht
    rcases ht with ht | ht | ht | ht | ht | ht | ht | ht | ht | ht <;>
      simp [exec_cycle, hc, ht, ha, with_scalar]
  · simp [exec_cycle, hc, ht, hj]
  · simp [exec_cycle, hc, ht, hj]
  · cases hj : m.jumps <;> simp [exec_cycle, hc, ht, hj, ha]

/-- C6 at jump-pop-cond with a jump target but no atom: the jump target stays. -/
theorem C6_stack_starved_witness :
    C6_code[C6_machine.instr_ptr]? = some ⟨TT_POP_JMP_COND, [], 1⟩
    ∧ C6_machine.jumps = [0] ∧ C6_machine.atoms = []
    ∧ exec_cycle C6_machine no_streams C6_code
        = some ({ C6_machine with instr_ptr := C6_machine.instr_ptr + 1 }, no_streams) :=
  ⟨rfl, rfl, rfl,
    C6_stack_starved C6_machine no_streams C6_code ⟨TT_POP_JMP_COND, [], 1⟩ rfl
      (Or.inr (Or.inr ⟨rfl, Or.inr rfl⟩))⟩

/-- C7: no division instruction changes a register whose divisor is zero. Div (`/`) with
an atom on the stack that parses to 0 pops the atom and leaves all 16 registers (and all
the rest but the instruction pointer) as they were; grid-div (`%/`) leaves register 0 as
it was, selected or not; rank-div (`[/`) leaves the first register of the selection as it
was. -/
theorem C7_division_by_zero (m : machine) (io : streams) (code : List token) (tok : token)
    (hc : code[m.instr_ptr]? = some tok) :
    (tok.type = TT_DIV → ∀ top rest, m.atoms = top :: rest → atoi top.data = 0 →
      exec_cycle m io code
        = some ({ m with instr_ptr := m.instr_ptr + 1, atoms := rest }, io))
    ∧ (tok.type = TT_NUM_DIV →
      ∃ m', exec_cycle m io code = some (m', io) ∧ m'.regs 0 = m.regs 0)
    ∧ (tok.type = TT_IND_DIV →
      ∃ m', exec_cycle m io code = some (m', io)
        ∧ ∀ i, (visited m).head? = some i →
            m'.regs (Fin.ofNat i) = m.regs (Fin.ofNat i)) := by
  refine ⟨fun ht top rest ha h0 => ?_, fun ht => ?_, fun ht => ?_⟩
  · simp [exec_cycle, hc, ht, ha, h0]
  · refine ⟨_, by simp only [exec_cycle, hc, ht]; rfl, ?_⟩
    show (for_each_reg { m with instr_ptr := m.instr_ptr + 1 } num_div ()).1 0 = m.regs 0
    rw [for_each_reg_selection]
    apply foldl_call_fn_unchanged
    intro ind hind e r k
    have hlt : ind < 16 := ((mem_selection _ ind).1 hind).1
    have h0 : ind = 0 := ofNat_inj_of_lt hlt (by norm_num) e
    subst h0
    cases r <;> simp [num_div]
  · refine ⟨_, by simp only [exec_cycle, hc, ht]; rfl, ?_⟩
    intro i hi
    show (for_each_reg { m with instr_ptr := m.instr_ptr + 1 } ind_div 0).1 (Fin.ofNat i)
      = m.regs (Fin.ofNat i)
    rw [visited_eq_selection] at hi
    have hsel : selection { m with instr_ptr := m.instr_ptr + 1 } = selection m := rfl
    rw [for_each_reg_selection, hsel]
    have hnd := selection_nodup m
    have hmem := mem_selection m
    cases hs : selection m with
    | nil => rw [hs] at hi; simp at hi
    | cons a l =>
      rw [hs] at hi hnd hmem
      simp only [List.head?_cons, Option.some.injEq] at hi
      subst hi
      rw [List.foldl_cons, foldl_call_fn_unchanged]
      · cases hr : m.regs (Fin.ofNat a) <;> simp [call_fn, ind_div, hr]
      · intro ind hind e
        exfalso
        have h1 : ind < 16 := ((hmem ind).1 (List.mem_cons_of_mem _ hind)).1
        have h2 : a < 16 := ((hmem a).1 (List.mem_cons_self _ _)).1
        have := ofNat_inj_of_lt h1 h2 e
        subst this
        exact (List.nodup_cons.1 hnd).1 hind

/-- C7 at three machines with 16 selected integer registers holding 12: div with the atom
`0`, grid-div, and rank-div on a selection whose first register is register 4. -/
theorem C7_division_by_zero_witness :
    (atoi ['0'] = 0
      ∧ exec_cycle C7_machine_div no_streams C7_code_div
        = some ({ C7_machine_div with
            instr_ptr := C7_machine_div.instr_ptr + 1, atoms := [] }, no_streams))
    ∧ (∃ m', exec_cycle int_machine no_streams C7_code_num_div = some (m', no_streams)
        ∧ m'.regs 0 = int_machine.regs 0)
    ∧ ((visited C7_machine_ind_div).head? = some 4
      ∧ ∃ m', exec_cycle C7_machine_ind_div no_streams C7_code_ind_div
            = some (m', no_streams)
          ∧ m'.regs (Fin.ofNat 4) = C7_machine_ind_div.regs (Fin.ofNat 4)) :=
  ⟨⟨by decide,
      (C7_division_by_zero C7_machine_div no_streams C7_code_div ⟨TT_DIV, [], 1⟩ rfl).1 rfl
        ⟨TT_LIT_NUM, ['0'], 1⟩ [] rfl (by decide)⟩,
    (C7_division_by_zero int_machine no_streams C7_code_num_div
      ⟨TT_NUM_DIV, [], 1⟩ rfl).2.1 rfl,
    ⟨by decide,
      ((C7_division_by_zero C7_machine_ind_div no_streams C7_code_ind_div
        ⟨TT_IND_DIV, [], 1⟩ rfl).2.2 rfl).imp
        (fun _ h => ⟨h.1, h.2 4 (by decide)⟩)⟩⟩

/-- C9: for every instruction list and every index `k` holding a jump-save instruction,
executing it with the instruction pointer at `k` pushes exactly `k` onto the jump stack
and leaves the instruction pointer at `k + 1`, changing nothing else; and a jump-pop
executed while `k` is on top of the jump stack pops it and sets the instruction pointer
to `k`. -/
theorem C9_jump_save (code : List token) (k : Nat) (t : token) (io : streams)
    (hk : code[k]? = some t) (ht : t.type = TT_SAVE_JMP) :
    (∀ m : machine, m.instr_ptr = k →
      exec_cycle m io code
        = some ({ m with instr_ptr := k + 1, jumps := (k : Int) :: m.jumps }, io))
    ∧ (∀ (m : machine) (t2 : token) (rest : List Int),
      code[m.instr_ptr]? = some t2 → t2.type = TT_POP_JMP → m.jumps = (k : Int) :: rest →
      exec_cycle m io code = some ({ m with instr_ptr := k, jumps := rest }, io)) := by
  have hlt : k < code.length := by
    rcases Nat.lt_or_ge k code.length with h | h
    · exact h
    · rw [List.getElem?_eq_none h] at hk; cases hk
  constructor
  · intro m hm
    subst hm
    simp [exec_cycle, hk, ht]
  · intro m t2 rest hc ht2 hj
    have h1 : ¬ ((k : Int) < 0) := by omega
    have h2 : ¬ ((code.length : Int) ≤ (k : Int)) := by omega
    simp [exec_cycle, hc, ht2, hj, h2]

/-- C9 on a program with jump-save at index 1 and jump-pop at index 2. -/
theorem C9_jump_save_witness :
    C9_code[1]? = some ⟨TT_SAVE_JMP, [], 1⟩
    ∧ exec_cycle { machine_init with instr_ptr := 1 } no_streams C9_code
        = some ({ machine_init with instr_ptr := 1 + 1, jumps := [((1 : Nat) : Int)] },
            no_streams)
    ∧ exec_cycle { machine_init with instr_ptr := 2, jumps := [((1 : Nat) : Int)] }
          no_streams C9_code
        = some ({ machine_init with instr_ptr := 1, jumps := [] }, no_streams) :=
  ⟨rfl,
    (C9_jump_save C9_code 1 ⟨TT_SAVE_JMP, [], 1⟩ no_streams rfl rfl).1
      { machine_init with instr_ptr := 1 } rfl,
    (C9_jump_save C9_code 1 ⟨TT_SAVE_JMP, [], 1⟩ no_streams rfl rfl).2
      { machine_init with instr_ptr := 2, jumps := [((1 : Nat) : Int)] }
      ⟨TT_POP_JMP, [], 1⟩ [] rfl rfl rfl⟩

/-- C10 as stated fails: jump-pop with the out-of-range target 7 on top of the jump
stack `[7, 0]` of a one-instruction program leaves the jump stack `[0]`, not `[7, 0]`. -/
theorem C10_counterexample :
    C10_code[C10_machine.instr_ptr]? = some ⟨TT_POP_JMP, [], 1⟩
    ∧ C10_machine.jumps = [7, 0] ∧ (7 : Int) ≥ (C10_code.length : Int)
    ∧ (exec_cycle C10_machine no_streams C10_code).map (fun r => r.1.jumps) = some [0]
    ∧ (exec_cycle C10_machine no_streams C10_code).map (fun r => r.1.jumps)
        ≠ some C10_machine.jumps := by
  decide

/-- C10, amended: jump-pop with an out-of-range target transfers no control. For every
instruction list of length `n` and every machine whose jump-stack top is negative or
`>= n`, executing jump-pop removes that top from the jump stack, advances the instruction
pointer by one and leaves everything else as it was. -/
theorem C10_jump_pop_out_of_range (m : machine) (io : streams) (code : List token)
    (tok : token) (jmp : Int) (rest : List Int)
    (hc : code[m.instr_ptr]? = some tok) (ht : tok.type = TT_POP_JMP)
    (hj : m.jumps = jmp :: rest) (hr : jmp < 0 ∨ jmp ≥ (code.length : Int)) :
    exec_cycle m io code
      = some ({ m with instr_ptr := m.instr_ptr + 1, jumps := rest }, io) := by
  simp [exec_cycle, hc, ht, hj, hr]

/-- C10, amended, at the jump stack `[7, 0]` and a one-instruction program. -/
theorem C10_jump_pop_out_of_range_witness :
    C10_code[C10_machine.instr_ptr]? = some ⟨TT_POP_JMP, [], 1⟩
    ∧ C10_machine.jumps = [7, 0]
    ∧ ((7 : Int) < 0 ∨ (7 : Int) ≥ (C10_code.length : Int))
    ∧ exec_cycle C10_machine no_streams C10_code
        = some ({ C10_machine with
            instr_ptr := C10_machine.instr_ptr + 1, jumps := [0] }, no_streams) :=
  ⟨rfl, rfl, by decide,
    C10_jump_pop_out_of_range C10_machine no_streams C10_code ⟨TT_POP_JMP, [], 1⟩ 7 [0]
      rfl rfl rfl (by decide)⟩

/-- C11: an unterminated string literal makes lexing fail with no instruction list. For
every source `p` that lexes successfully and every text `s` containing no double quote,
`lex` applied to `p`, a double quote and `s` returns `std::nullopt`, never a token list. -/
theorem C11_unterminated_string (p s : List Char) (garbage : Nat) (c : List diag)
    (t : List token) (hp : lex p garbage = some { cerr := c, toks := some t })
    (hs : DQUOTE ∉ s) :
    ∃ c', lex (p ++ [DQUOTE] ++ s) garbage = some { cerr := c', toks := none } := by
  have e : p ++ [DQUOTE] ++ s = p ++ DQUOTE :: s := by simp
  rw [e]
  unfold lex at hp ⊢
  exact lex_loop_append p s garbage hs _ p.length 0 1 [] [] c t (Nat.zero_le _) hp (by simp)

/-- C11 at the source made of a double quote and `abc`: the empty source lexes, `abc` has
no double quote, and the lexer reports the unterminated string of line 1. -/
theorem C11_unterminated_string_witness :
    lex [] 0 = some { cerr := [], toks := some [] } ∧ DQUOTE ∉ ['a', 'b', 'c']
    ∧ (∃ c', lex ([] ++ [DQUOTE] ++ ['a', 'b', 'c']) 0 = some { cerr := c', toks := none })
    ∧ lex [DQUOTE, 'a', 'b', 'c'] 0
        = some { cerr := [(1, "unterminated string!")], toks := none } :=
  ⟨rfl, by decide, C11_unterminated_string [] ['a', 'b', 'c'] 0 [] [] rfl (by decide), rfl⟩

/-- C12: the code does not do what the claim says when `?` is the last character of the
source. `lex` then calls `prog_err` but leaves the `switch` with `break` instead of
returning `std::nullopt`: it goes on to push a token whose kind was never initialised and
returns the instruction list, also after other instructions (`A?`). The sibling markers
`j`, `%`, `[`, `|` and the backtick at the end of the source, and `?` followed by another
character, make `lex` return `std::nullopt`. -/
theorem C12_question_mark_at_end (garbage : Nat) :
    lex ['?'] garbage
        = some { cerr := [(1, "expected '|' after '?'!")],
                 toks := some [⟨garbage, [], 1⟩] }
    ∧ lex ['A', '?'] garbage
        = some { cerr := [(1, "expected '|' after '?'!")],
                 toks := some [⟨TT_TOGGLE_MAT, [], 1⟩, ⟨garbage, [], 1⟩] }
    ∧ (lex ['j'] garbage).map (fun o => o.toks) = some none
    ∧ (lex ['%'] garbage).map (fun o => o.toks) = some none
    ∧ (lex ['['] garbage).map (fun o => o.toks) = some none
    ∧ (lex ['|'] garbage).map (fun o => o.toks) = some none
    ∧ (lex [BACKTICK] garbage).map (fun o => o.toks) = some none
    ∧ (lex ['?', 'x'] garbage).map (fun o => o.toks) = some none :=
  ⟨rfl, rfl, rfl, rfl, rfl, rfl, rfl, rfl⟩

/-- C13, amended: for every machine with exactly one mask bit set and a non-empty atom
stack, pop-atom followed at once by push-atom leaves the atom stack with the same atoms
below the top and one atom pushed back in place of the popped one. For a popped string
atom it is a string atom carrying the first 38 bytes of the popped text (the payload up
to its first NUL byte), so the same kind and payload when the payload has no NUL and at
most 37 bytes; for a popped character atom it is a number atom carrying the decimal text
of the character converted from `char` to `long`, which is the byte value `b` for a byte
below 128 and the negative value `b - 256` for a byte from 128 on; for any other popped
atom it is a number atom carrying the decimal text of the integer `atoi` parses from the
payload. -/
theorem C13_pop_then_push (m : machine) (io : streams) (code : List token) (t1 t2 top : token)
    (rest : List token) (j : Nat) (hj : j < 16) (hmask : m.mask = 2 ^ j)
    (h1 : code[m.instr_ptr]? = some t1) (ht1 : t1.type = TT_POP_ATOM)
    (h2 : code[m.instr_ptr + 1]? = some t2) (ht2 : t2.type = TT_PUSH_ATOM)
    (ha : m.atoms = top :: rest) :
    (∃ m1, exec_cycle m io code = some (m1, io)
      ∧ exec_cycle m1 io code
          = some ({ m with
              instr_ptr := m.instr_ptr + 2
              regs := fun i => if m.mask.testBit i.val = true then popped_reg top else m.regs i
              atoms := atom_of_reg (popped_reg top) :: rest }, io))
    ∧ (top.type = TT_LIT_STR →
        (atom_of_reg (popped_reg top)).type = TT_LIT_STR
        ∧ (atom_of_reg (popped_reg top)).data = (c_str top.data).take 38
        ∧ (NUL ∉ top.data → top.data.length ≤ 37 →
            (atom_of_reg (popped_reg top)).data = top.data))
    ∧ (top.type = TT_LIT_CH →
        (atom_of_reg (popped_reg top)).type = TT_LIT_NUM
        ∧ (atom_of_reg (popped_reg top)).data = to_string (char_to_long (top.data.headD NUL))
        ∧ ((top.data.headD NUL).toNat < 128 →
            (atom_of_reg (popped_reg top)).data
              = to_string ((top.data.headD NUL).toNat : Int))
        ∧ (128 ≤ (top.data.headD NUL).toNat → (top.data.headD NUL).toNat < 256 →
            (atom_of_reg (popped_reg top)).data
              = to_string (((top.data.headD NUL).toNat : Int) - 256)))
    ∧ (top.type ≠ TT_LIT_STR → top.type ≠ TT_LIT_CH →
        (atom_of_reg (popped_reg top)).type = TT_LIT_NUM
        ∧ (atom_of_reg (popped_reg top)).data = to_string (atoi top.data)) := by
  refine ⟨⟨_, exec_pop_atom m io code t1 top rest h1 ht1 ha, ?_⟩, ?_, ?_, ?_⟩
  · rw [exec_push_atom _ io code t2 h2 ht2]
    have hv : visited { m with
          instr_ptr := m.instr_ptr + 1
          atoms := rest
          regs := fun i => if m.mask.testBit i.val = true then popped_reg top else m.regs i }
        = [j] := by
      rw [visited_eq_selection]; exact selection_single _ j hj hmask
    have hbit : m.mask.testBit j = true := by rw [hmask]; exact Nat.testBit_two_pow_self
    have hval : ((Fin.ofNat j : Fin 16)).val = j := by
      simp [Fin.ofNat, Nat.mod_eq_of_lt hj]
    simp [hv, hval, hbit]
  · intro hs
    refine ⟨by simp [popped_reg, hs, atom_of_reg],
      by simp [popped_reg, hs, atom_of_reg, strncpy, reg_text, REG_STR_SIZE], ?_⟩
    intro hn hl
    simp [popped_reg, hs, atom_of_reg, reg_text, strncpy_short _ hn (by omega)]
  · intro hc
    have hd : (atom_of_reg (popped_reg top)).data
        = to_string (char_to_long (top.data.headD NUL)) := by
      simp [popped_reg, hc, atom_of_reg]
    refine ⟨by simp [popped_reg, hc, atom_of_reg], hd, fun h => ?_, fun h h256 => ?_⟩
    · rw [hd, char_to_long, Nat.mod_eq_of_lt (by omega), if_pos (by omega)]
    · rw [hd, char_to_long, Nat.mod_eq_of_lt (by omega), if_neg (by omega)]
      rfl
  · intro hs hc
    simp only [TT_LIT_STR, TT_LIT_CH, ne_eq] at hs hc
    simp [popped_reg, hs, hc, atom_of_reg]

/-- C13 as stated fails: with register 2 alone selected, popping the character atom `x`
and pushing back gives the number atom `120`, popping the number atom `007` and pushing
back gives the number atom `7`, and popping the character atom whose byte is `0xE9` and
pushing back gives the number atom `-23`. -/
theorem C13_counterexample :
    (∃ m1, exec_cycle (C13_machine ⟨TT_LIT_CH, ['x'], 1⟩) no_streams C13_code
          = some (m1, no_streams)
      ∧ (exec_cycle m1 no_streams C13_code).map (fun r => r.1.atoms)
          = some [⟨TT_LIT_NUM, ['1', '2', '0'], -1⟩])
    ∧ (∃ m1, exec_cycle (C13_machine ⟨TT_LIT_NUM, ['0', '0', '7'], 1⟩) no_streams C13_code
          = some (m1, no_streams)
      ∧ (exec_cycle m1 no_streams C13_code).map (fun r => r.1.atoms)
          = some [⟨TT_LIT_NUM, ['7'], -1⟩])
    ∧ (∃ m1, exec_cycle (C13_machine ⟨TT_LIT_CH, [Char.ofNat 0xE9], 1⟩) no_streams C13_code
          = some (m1, no_streams)
      ∧ (exec_cycle m1 no_streams C13_code).map (fun r => r.1.atoms)
          = some [⟨TT_LIT_NUM, ['-', '2', '3'], -1⟩]) := by
  refine ⟨⟨_, rfl, ?_⟩, ⟨_, rfl, ?_⟩, ⟨_, rfl, ?_⟩⟩ <;> decide

/-- C13, amended, at register 2 and the string atom `hi`, which comes back unchanged, and
at the character atom whose byte is `0xE9`, which comes back as the number atom `-23`. -/
theorem C13_pop_then_push_witness :
    (∃ m1, exec_cycle (C13_machine ⟨TT_LIT_STR, ['h', 'i'], 1⟩) no_streams C13_code
          = some (m1, no_streams)
      ∧ exec_cycle m1 no_streams C13_code
          = some ({ C13_machine ⟨TT_LIT_STR, ['h', 'i'], 1⟩ with
              instr_ptr := (C13_machine ⟨TT_LIT_STR, ['h', 'i'], 1⟩).instr_ptr + 2
              regs := fun i =>
                if (C13_machine ⟨TT_LIT_STR, ['h', 'i'], 1⟩).mask.testBit i.val = true
                then popped_reg ⟨TT_LIT_STR, ['h', 'i'], 1⟩
                else (C13_machine ⟨TT_LIT_STR, ['h', 'i'], 1⟩).regs i
              atoms := [atom_of_reg (popped_reg ⟨TT_LIT_STR, ['h', 'i'], 1⟩)] }, no_streams))
    ∧ (atom_of_reg (popped_reg ⟨TT_LIT_STR, ['h', 'i'], 1⟩)).type = TT_LIT_STR
    ∧ (atom_of_reg (popped_reg ⟨TT_LIT_STR, ['h', 'i'], 1⟩)).data = ['h', 'i']
    ∧ (atom_of_reg (popped_reg ⟨TT_LIT_CH, [Char.ofNat 0xE9], 1⟩)).type = TT_LIT_NUM
    ∧ (atom_of_reg (popped_reg ⟨TT_LIT_CH, [Char.ofNat 0xE9], 1⟩)).data = ['-', '2', '3'] :=
  have h := C13_pop_then_push (C13_machine ⟨TT_LIT_STR, ['h', 'i'], 1⟩) no_streams C13_code
    ⟨TT_POP_ATOM, [], 1⟩ ⟨TT_PUSH_ATOM, [], 1⟩ ⟨TT_LIT_STR, ['h', 'i'], 1⟩ [] 2 (by decide)
    rfl rfl rfl rfl rfl rfl
  have g := C13_pop_then_push (C13_machine ⟨TT_LIT_CH, [Char.ofNat 0xE9], 1⟩) no_streams
    C13_code ⟨TT_POP_ATOM, [], 1⟩ ⟨TT_PUSH_ATOM, [], 1⟩ ⟨TT_LIT_CH, [Char.ofNat 0xE9], 1⟩ [] 2
    (by decide) rfl rfl rfl rfl rfl rfl
  ⟨h.1, (h.2.1 rfl).1, (h.2.1 rfl).2.2 (by decide) (by decide), (g.2.2.1 rfl).1,
    ((g.2.2.1 rfl).2.2.2 (by decide) (by decide)).trans (by decide)⟩

/-- C14 as stated fails: the source that toggles bit 0, pushes a string literal of 38
bytes and pops it leaves register 0 a text register holding all 38 bytes, more than 37. -/
theorem C14_counterexample :
    lex C14_src 0 = some { cerr := [], toks := some C14_code }
    ∧ (exec_n C14_code 3 machine_init no_streams).map (fun r => r.1.regs 0)
        = some (reg.str (List.replicate 38 'a'))
    ∧ (List.replicate 38 'a').length = 38 ∧ ¬ ((List.replicate 38 'a').length ≤ 37) := by
  decide

/-- C14, amended: text registers are bounded by 38 bytes, the size of the buffer. In every
machine state reached from the initial state by executing any number of instructions of
any instruction list, each text register's stored text is at most 38 bytes long; and
pop-atom of a string atom stores in each selected register the first 38 bytes of the
atom's text (the payload up to its first NUL byte), so only the first 38 bytes of a
longer payload without NUL. -/
theorem C14_text_registers_bounded (code : List token) :
    (∀ (n : Nat) (io : streams) (m' : machine) (io' : streams),
      exec_n code n machine_init io = some (m', io') →
      ∀ i s, m'.regs i = reg.str s → s.length ≤ 38)
    ∧ (∀ (m : machine) (io : streams) (tok top : token) (rest : List token),
      code[m.instr_ptr]? = some tok → tok.type = TT_POP_ATOM → m.atoms = top :: rest →
      top.type = TT_LIT_STR →
      ∃ m', exec_cycle m io code = some (m', io)
        ∧ ∀ i : Fin 16, m.mask.testBit i.val = true →
            m'.regs i = reg.str ((c_str top.data).take 38)
              ∧ (NUL ∉ top.data → m'.regs i = reg.str (top.data.take 38))) := by
  constructor
  · intro n io m' io' h i s hs
    exact exec_n_text_bounded code n machine_init io (m', io')
      (fun j t ht => by cases ht; exact Nat.zero_le _) h i s hs
  · intro m io tok top rest hc ht ha hs
    refine ⟨_, exec_pop_atom m io code tok top rest hc ht ha, ?_⟩
    intro i hi
    have h1 : popped_reg top = reg.str ((c_str top.data).take 38) := by
      simp [popped_reg, hs, strncpy, REG_STR_SIZE]
    refine ⟨by simp [hi, h1], fun hn => ?_⟩
    simp [hi, h1, c_str_of_not_mem _ hn]

/-- C14, amended, on the run that pops a string literal of 38 bytes into register 0. -/
theorem C14_text_registers_bounded_witness :
    (∃ m' io', exec_n C14_code 3 machine_init no_streams = some (m', io')
      ∧ ∀ i s, m'.regs i = reg.str s → s.length ≤ 38)
    ∧ (∃ m', exec_cycle { machine_init with
            mask := 1, instr_ptr := 2, atoms := [⟨TT_LIT_STR, List.replicate 38 'a', 1⟩] }
          no_streams C14_code = some (m', no_streams)
        ∧ m'.regs 0 = reg.str ((List.replicate 38 'a').take 38)) :=
  ⟨⟨_, _, rfl, (C14_text_registers_bounded C14_code).1 3 no_streams _ _ rfl⟩,
    ((C14_text_registers_bounded C14_code).2
      { machine_init with
        mask := 1, instr_ptr := 2, atoms := [⟨TT_LIT_STR, List.replicate 38 'a', 1⟩] }
      no_streams ⟨TT_POP_ATOM, [], 1⟩ ⟨TT_LIT_STR, List.replicate 38 'a', 1⟩ [] rfl rfl rfl
      rfl).imp (fun _ h => ⟨h.1, (h.2 0 (by decide)).2 (by decide)⟩)⟩

/-- C15 as stated fails. The string atom with payload `a`, NUL, `b` makes the text register
holding `a` an integer register holding 1, although its stored text is not the payload:
`strcmp` reads the payload up to its first NUL. The number atom `2147483648` makes the
integer register holding 2147483648 hold 0: `atoi` gives an `int`, here -2147483648. -/
theorem C15_counterexample :
    (exec_cycle C15_machine_nul no_streams C15_code).map (fun r => r.1.regs 0)
        = some (reg.num 1)
    ∧ C15_machine_nul.regs 0 = reg.str ['a'] ∧ ['a'] ≠ ['a', NUL, 'b']
    ∧ (exec_cycle C15_machine_big no_streams C15_code).map (fun r => r.1.regs 0)
        = some (reg.num 0)
    ∧ atoi ['2', '1', '4', '7', '4', '8', '3', '6', '4', '8'] = -2147483648 := by
  decide

/-- C15, amended: with an atom on the stack, equal pops it and, for every selected
register: if the atom is a number literal and the register is an integer, the register
becomes 1 when its value equals the integer `atoi` parses from the atom's payload and 0
otherwise; if the atom is a string literal and the register is text, the register becomes
an integer register holding 1 when its stored text is exactly the atom's payload up to
its first NUL byte (the whole payload when it has none) and 0 otherwise; in every other
combination of atom and register, so for every character atom, the register is left as
it was. Unselected registers and the rest of the machine are left as they were, except
for the instruction pointer. -/
theorem C15_equal (m : machine) (io : streams) (code : List token) (tok top : token)
    (rest : List token) (hc : code[m.instr_ptr]? = some tok) (ht : tok.type = TT_EQUAL)
    (ha : m.atoms = top :: rest) :
    ∃ regs', exec_cycle m io code
        = some ({ m with instr_ptr := m.instr_ptr + 1, atoms := rest, regs := regs' }, io)
      ∧ ∀ i : Fin 16,
          (m.mask.testBit i.val = false → regs' i = m.regs i)
          ∧ (m.mask.testBit i.val = true →
              (∀ n, top.type = TT_LIT_NUM → m.regs i = reg.num n →
                regs' i = reg.num (if n = atoi top.data then 1 else 0))
              ∧ (∀ s, top.type = TT_LIT_STR → m.regs i = reg.str s →
                regs' i = reg.num (if s = c_str top.data then 1 else 0)
                ∧ (NUL ∉ top.data → regs' i = reg.num (if s = top.data then 1 else 0)))
              ∧ (¬ (top.type = TT_LIT_NUM ∧ (m.regs i).type = reg_type.RT_INT) →
                ¬ (top.type = TT_LIT_STR ∧ (m.regs i).type = reg_type.RT_STR) →
                regs' i = m.regs i)) := by
  refine ⟨_, exec_equal m io code tok top rest hc ht ha, fun i => ⟨fun h => ?_, fun h => ?_⟩⟩
  · simp [h]
  · simp only [h, if_true]
    refine ⟨fun n hn hr => ?_, fun s hs hr => ?_, fun h1 h2 => ?_⟩
    · simp [hr, equal, hn]
    · refine ⟨by simp [hr, equal, hs, reg_text], fun hnul => ?_⟩
      simp [hr, equal, hs, reg_text, c_str_of_not_mem _ hnul]
    · cases hr : m.regs i with
      | num n =>
        have : ¬ (top.type = 2) := fun e => h1 ⟨e, by simp [hr, reg.type]⟩
        simp [equal, this]
      | str s =>
        have : ¬ (top.type = 0) := fun e => h2 ⟨e, by simp [hr, reg.type]⟩
        simp [equal, this]

/-- C15, amended, at a machine with registers 0 (integer 7) and 1 (text `ab`) selected and
register 2 not: the number atom `7` makes register 0 hold 1 and leaves register 1; the
string atom `ab` makes register 1 hold 1 and leaves register 0; the character atom `7`
leaves both; register 2 is left in all cases. -/
theorem C15_equal_witness :
    (∃ regs', exec_cycle (C15_machine ⟨TT_LIT_NUM, ['7'], 1⟩) no_streams C15_code
        = some ({ C15_machine ⟨TT_LIT_NUM, ['7'], 1⟩ with
            instr_ptr := (C15_machine ⟨TT_LIT_NUM, ['7'], 1⟩).instr_ptr + 1
            atoms := [], regs := regs' }, no_streams)
      ∧ regs' 0 = reg.num (if (7 : Int) = atoi ['7'] then 1 else 0)
      ∧ regs' 1 = (C15_machine ⟨TT_LIT_NUM, ['7'], 1⟩).regs 1
      ∧ regs' 2 = (C15_machine ⟨TT_LIT_NUM, ['7'], 1⟩).regs 2)
    ∧ (∃ regs', exec_cycle (C15_machine ⟨TT_LIT_STR, ['a', 'b'], 1⟩) no_streams C15_code
        = some ({ C15_machine ⟨TT_LIT_STR, ['a', 'b'], 1⟩ with
            instr_ptr := (C15_machine ⟨TT_LIT_STR, ['a', 'b'], 1⟩).instr_ptr + 1
            atoms := [], regs := regs' }, no_streams)
      ∧ regs' 1 = reg.num (if ['a', 'b'] = ['a', 'b'] then 1 else 0)
      ∧ regs' 0 = (C15_machine ⟨TT_LIT_STR, ['a', 'b'], 1⟩).regs 0)
    ∧ (∃ regs', exec_cycle (C15_machine ⟨TT_LIT_CH, ['7'], 1⟩) no_streams C15_code
        = some ({ C15_machine ⟨TT_LIT_CH, ['7'], 1⟩ with
            instr_ptr := (C15_machine ⟨TT_LIT_CH, ['7'], 1⟩).instr_ptr + 1
            atoms := [], regs := regs' }, no_streams)
      ∧ regs' 0 = (C15_machine ⟨TT_LIT_CH, ['7'], 1⟩).regs 0) :=
  ⟨(C15_equal (C15_machine ⟨TT_LIT_NUM, ['7'], 1⟩) no_streams C15_code ⟨TT_EQUAL, [], 1⟩
      ⟨TT_LIT_NUM, ['7'], 1⟩ [] rfl rfl rfl).imp
      (fun _ h => ⟨h.1, ((h.2 0).2 (by decide)).1 7 rfl rfl,
        ((h.2 1).2 (by decide)).2.2 (by decide) (by decide), (h.2 2).1 (by decide)⟩),
    (C15_equal (C15_machine ⟨TT_LIT_STR, ['a', 'b'], 1⟩) no_streams C15_code ⟨TT_EQUAL, [], 1⟩
      ⟨TT_LIT_STR, ['a', 'b'], 1⟩ [] rfl rfl rfl).imp
      (fun _ h => ⟨h.1, (((h.2 1).2 (by decide)).2.1 ['a', 'b'] rfl rfl).2 (by decide),
        ((h.2 0).2 (by decide)).2.2 (by decide) (by decide)⟩),
    (C15_equal (C15_machine ⟨TT_LIT_CH, ['7'], 1⟩) no_streams C15_code ⟨TT_EQUAL, [], 1⟩
      ⟨TT_LIT_CH, ['7'], 1⟩ [] rfl rfl rfl).imp
      (fun _ h => ⟨h.1, ((h.2 0).2 (by decide)).2.2 (by decide) (by decide)⟩)⟩

/-- C16: `and` pushes exactly one number atom, whose payload is `1` if every selected
integer register is non-zero (text registers are not examined, and an empty selection
gives `1`) and `0` otherwise; `or` pushes exactly one number atom, whose payload is `1` if
at least one selected integer register is non-zero and `0` otherwise. Neither modifies a
register, the mask or the jump stack: only the atom stack and the instruction pointer
change. The pushed atom does not depend on the traversal axis or the reversed flag. -/
theorem C16_and_or (m : machine) (io : streams) (code : List token) (tok : token)
    (hc : code[m.instr_ptr]? = some tok) :
    (tok.type = TT_AND →
      ∃ b : Bool,
        exec_cycle m io code
          = some ({ m with
              instr_ptr := m.instr_ptr + 1
              atoms := ⟨TT_LIT_NUM, if b then ['1'] else ['0'], -1⟩ :: m.atoms }, io)
        ∧ (b = true ↔
            ∀ i : Fin 16, m.mask.testBit i.val = true → ∀ n, m.regs i = reg.num n → n ≠ 0)
        ∧ ∀ (mode : op_mode) (rev : Bool),
            exec_cycle { m with mode := mode, rev := rev } io code
              = some ({ m with
                  mode := mode, rev := rev, instr_ptr := m.instr_ptr + 1
                  atoms := ⟨TT_LIT_NUM, if b then ['1'] else ['0'], -1⟩ :: m.atoms }, io))
    ∧ (tok.type = TT_OR →
      ∃ b : Bool,
        exec_cycle m io code
          = some ({ m with
              instr_ptr := m.instr_ptr + 1
              atoms := ⟨TT_LIT_NUM, if b then ['1'] else ['0'], -1⟩ :: m.atoms }, io)
        ∧ (b = true ↔
            ∃ i : Fin 16, m.mask.testBit i.val = true ∧ ∃ n, m.regs i = reg.num n ∧ n ≠ 0)
        ∧ ∀ (mode : op_mode) (rev : Bool),
            exec_cycle { m with mode := mode, rev := rev } io code
              = some ({ m with
                  mode := mode, rev := rev, instr_ptr := m.instr_ptr + 1
                  atoms := ⟨TT_LIT_NUM, if b then ['1'] else ['0'], -1⟩ :: m.atoms }, io)) := by
  constructor
  · intro ht
    have key : ∀ m' : machine, m'.regs = m.regs → m'.mask = m.mask →
        (for_each_reg m' and_ true).2 = (for_each_reg m and_ true).2 := by
      intro m' h1 h2
      rw [Bool.eq_iff_iff, and_flag_iff, and_flag_iff, h1, h2]
    refine ⟨(for_each_reg m and_ true).2, ?_, and_flag_iff m, fun mode rev => ?_⟩
    · simp [exec_cycle, hc, ht, key { m with instr_ptr := m.instr_ptr + 1 } rfl rfl]
    · simp [exec_cycle, hc, ht,
        key { m with mode := mode, rev := rev, instr_ptr := m.instr_ptr + 1 } rfl rfl]
  · intro ht
    have key : ∀ m' : machine, m'.regs = m.regs → m'.mask = m.mask →
        (for_each_reg m' or_ false).2 = (for_each_reg m or_ false).2 := by
      intro m' h1 h2
      rw [Bool.eq_iff_iff, or_flag_iff, or_flag_iff, h1, h2]
    refine ⟨(for_each_reg m or_ false).2, ?_, or_flag_iff m, fun mode rev => ?_⟩
    · simp [exec_cycle, hc, ht, key { m with instr_ptr := m.instr_ptr + 1 } rfl rfl]
    · simp [exec_cycle, hc, ht,
        key { m with mode := mode, rev := rev, instr_ptr := m.instr_ptr + 1 } rfl rfl]

/-- C16 at a machine in column mode, reversed, that selects registers 0 (integer 3), 1
(text) and 2: with register 2 holding 0, `and` pushes `0`; with register 2 holding 5,
`or` pushes `1`. -/
theorem C16_and_or_witness :
    (∃ b : Bool,
        exec_cycle (C16_machine 0) no_streams C16_code_and
          = some ({ C16_machine 0 with
              instr_ptr := (C16_machine 0).instr_ptr + 1
              atoms := ⟨TT_LIT_NUM, if b then ['1'] else ['0'], -1⟩ :: (C16_machine 0).atoms },
              no_streams)
        ∧ b = false)
    ∧ (∃ b : Bool,
        exec_cycle (C16_machine 5) no_streams C16_code_or
          = some ({ C16_machine 5 with
              instr_ptr := (C16_machine 5).instr_ptr + 1
              atoms := ⟨TT_LIT_NUM, if b then ['1'] else ['0'], -1⟩ :: (C16_machine 5).atoms },
              no_streams)
        ∧ b = true) :=
  ⟨((C16_and_or (C16_machine 0) no_streams C16_code_and ⟨TT_AND, [], 1⟩ rfl).1 rfl).imp
      (fun _ h => ⟨h.1, Bool.eq_false_iff.2 (fun hb => (h.2.1.1 hb) 2 (by decide) 0 rfl rfl)⟩),
    ((C16_and_or (C16_machine 5) no_streams C16_code_or ⟨TT_OR, [], 1⟩ rfl).2 rfl).imp
      (fun _ h => ⟨h.1, h.2.1.2 ⟨0, by decide, 3, rfl, by decide⟩⟩)⟩

/-- C17: push-atom pushes exactly one atom per selected register, as many atoms as the mask
has bits set among its 16, and modifies no register (nothing but the atom stack and the
instruction pointer). If the selection in traversal order is `r1, ..., rk`, the atom stack
afterwards, read from the top, is `atom(rk), ..., atom(r1)` followed by the previous
stack, where `atom(r)` is a number-literal atom carrying the decimal text of the value
for an integer register and a string-literal atom carrying the stored text for a text
register. -/
theorem C17_push_atom (m : machine) (io : streams) (code : List token) (tok : token)
    (hc : code[m.instr_ptr]? = some tok) (ht : tok.type = TT_PUSH_ATOM) :
    exec_cycle m io code
        = some ({ m with
            instr_ptr := m.instr_ptr + 1
            atoms := ((visited m).map (fun i => atom_of_reg (m.regs (Fin.ofNat i)))).reverse
              ++ m.atoms }, io)
    ∧ (visited m).length = ((List.range 16).filter (fun i => m.mask.testBit i)).length
    ∧ (∀ n, atom_of_reg (reg.num n) = ⟨TT_LIT_NUM, to_string n, -1⟩)
    ∧ (∀ s, atom_of_reg (reg.str s) = ⟨TT_LIT_STR, s, -1⟩) :=
  ⟨exec_push_atom m io code tok hc ht, visited_length m, fun _ => rfl, fun _ => rfl⟩

/-- C17 at a machine in row mode that selects register 0, holding 5, and register 1,
holding the text `ab`: the atom of register 1 ends on top of the atom of register 0. -/
theorem C17_push_atom_witness :
    exec_cycle C17_machine no_streams C17_code
        = some ({ C17_machine with
            instr_ptr := C17_machine.instr_ptr + 1
            atoms :=
              ((visited C17_machine).map
                (fun i => atom_of_reg (C17_machine.regs (Fin.ofNat i)))).reverse
              ++ C17_machine.atoms }, no_streams)
    ∧ ((visited C17_machine).map
          (fun i => atom_of_reg (C17_machine.regs (Fin.ofNat i)))).reverse
        ++ C17_machine.atoms
        = [⟨TT_LIT_STR, ['a', 'b'], -1⟩, ⟨TT_LIT_NUM, ['5'], -1⟩, ⟨TT_LIT_CH, ['z'], 1⟩] :=
  ⟨(C17_push_atom C17_machine no_streams C17_code ⟨TT_PUSH_ATOM, [], 1⟩ rfl rfl).1,
    by decide⟩

/-- C18 as stated fails: with all 16 registers selected and reversed off, but in column
mode, the traversal order is 0, 4, 8, 12, 1, ..., so register 4 has rank 1; from integer
registers holding 12, grid-add leaves 16 in register 4 and rank-add leaves 13. -/
theorem C18_counterexample :
    C18_machine.mask = 0xffff ∧ C18_machine.rev = false
    ∧ visited C18_machine = [0, 4, 8, 12, 1, 5, 9, 13, 2, 6, 10, 14, 3, 7, 11, 15]
    ∧ (exec_cycle C18_machine no_streams code_num_add).map (fun r => r.1.regs 4)
        = some (reg.num 16)
    ∧ (exec_cycle C18_machine no_streams code_ind_add).map (fun r => r.1.regs 4)
        = some (reg.num 13) := by
  decide

/-- C18, amended: when the mask selects all 16 registers, the reversed flag is off and the
axis is row, every register's rank within the selection equals its grid id (the
traversal visits 0, 1, ..., 15), so grid-add (`%+`) and rank-add (`[+`) executed from the
same machine state produce identical resulting machine states. -/
theorem C18_full_mask_row_forward (m : machine) (io : streams) (c1 c2 : List token)
    (t1 t2 : token) (h1 : c1[m.instr_ptr]? = some t1) (ht1 : t1.type = TT_NUM_ADD)
    (h2 : c2[m.instr_ptr]? = some t2) (ht2 : t2.type = TT_IND_ADD)
    (hmask : m.mask = 0xffff) (hrev : m.rev = false) (hmode : m.mode = op_mode.OM_ROW) :
    visited m = List.range 16
    ∧ ∃ m', exec_cycle m io c1 = some (m', io) ∧ exec_cycle m io c2 = some (m', io) := by
  have hs : selection m = List.range' 0 16 := by
    unfold selection
    rw [hmask, hrev, hmode]
    decide
  refine ⟨by rw [visited_eq_selection, hs]; decide, _, exec_num_add m io c1 t1 h1 ht1, ?_⟩
  rw [exec_ind_add m io c2 t2 h2 ht2, hs, foldl_add_range]

/-- C18, amended, at the machine with 16 selected integer registers in row mode. -/
theorem C18_full_mask_row_forward_witness :
    int_machine.mask = 0xffff ∧ int_machine.rev = false ∧ int_machine.mode = op_mode.OM_ROW
    ∧ visited int_machine = List.range 16
    ∧ ∃ m', exec_cycle int_machine no_streams code_num_add = some (m', no_streams)
        ∧ exec_cycle int_machine no_streams code_ind_add = some (m', no_streams) :=
  ⟨rfl, rfl, rfl,
    C18_full_mask_row_forward int_machine no_streams code_num_add code_ind_add
      ⟨TT_NUM_ADD, [], 1⟩ ⟨TT_IND_ADD, [], 1⟩ rfl rfl rfl rfl rfl rfl rfl⟩

/-- C19 as stated fails: with register 0 alone selected, in column mode and reversed, and
with registers 0, 1 and 2 selected in row mode, forward, all of them integers, grid-add
and rank-add produce the same registers although the mask is not 0xFFFF (and, in the
first case, the reversed flag is on). -/
theorem C19_counterexample :
    (∀ i : Fin 16,
      (exec_cycle C19_machine_one no_streams code_num_add).map (fun r => r.1.regs i)
        = (exec_cycle C19_machine_one no_streams code_ind_add).map (fun r => r.1.regs i))
    ∧ C19_machine_one.mask = 1 ∧ C19_machine_one.rev = true
    ∧ (∀ i : Fin 16,
      (exec_cycle C19_machine_three no_streams code_num_add).map (fun r => r.1.regs i)
        = (exec_cycle C19_machine_three no_streams code_ind_add).map (fun r => r.1.regs i))
    ∧ (exec_cycle C19_machine_three no_streams code_num_add).map (fun r => r.1.regs 2)
        = some (reg.num 14)
    ∧ C19_machine_three.mask = 7 ∧ C19_machine_three.mask ≠ 0xffff := by
  decide

/-- C19, amended: grid-add and rank-add coincide exactly when every selected register's
rank equals its grid id. For every machine state in which all selected registers are
integers, executing grid-add (`%+`) and executing rank-add (`[+`) produce the same
resulting registers if and only if the selection, in traversal order, is `0, 1, ..., k-1`,
where `k` is the number of selected registers. -/
theorem C19_add_coincide_iff (m : machine) (io : streams) (c1 c2 : List token)
    (t1 t2 : token) (h1 : c1[m.instr_ptr]? = some t1) (ht1 : t1.type = TT_NUM_ADD)
    (h2 : c2[m.instr_ptr]? = some t2) (ht2 : t2.type = TT_IND_ADD)
    (hint : ∀ i : Fin 16, m.mask.testBit i.val = true → ∃ n, m.regs i = reg.num n) :
    ∃ m1 m2, exec_cycle m io c1 = some (m1, io) ∧ exec_cycle m io c2 = some (m2, io)
      ∧ (m1.regs = m2.regs ↔ visited m = List.range (visited m).length) := by
  refine ⟨_, _, exec_num_add m io c1 t1 h1 ht1, exec_ind_add m io c2 t2 h2 ht2, ?_⟩
  rw [visited_eq_selection, List.range_eq_range']
  constructor
  · intro h
    apply foldl_add_eq_imp_range _ 0 m.regs (selection_nodup m)
      (fun a ha => ((mem_selection m a).1 ha).1) _ (by simpa using selection_length_le m) h
    intro a ha
    have hm := (mem_selection m a).1 ha
    exact hint (Fin.ofNat a) (by simpa [Fin.ofNat, Nat.mod_eq_of_lt hm.1] using hm.2)
  · intro h
    show ((selection m).foldl (fun st ind => call_fn num_add ind st) (m.regs, ())).1
      = ((selection m).foldl (fun st ind => call_fn ind_add ind st) (m.regs, 0)).1
    rw [h]
    exact foldl_add_range _ 0 m.regs

/-- C19, amended, at the machine that selects the integer registers 0, 1 and 2 in row
mode, forward: the selection is 0, 1, 2 and the two instructions agree. -/
theorem C19_add_coincide_iff_witness :
    visited C19_machine_three = List.range (visited C19_machine_three).length
    ∧ ∃ m1 m2, exec_cycle C19_machine_three no_streams code_num_add = some (m1, no_streams)
      ∧ exec_cycle C19_machine_three no_streams code_ind_add = some (m2, no_streams)
      ∧ m1.regs = m2.regs :=
  ⟨by decide,
    (C19_add_coincide_iff C19_machine_three no_streams code_num_add code_ind_add
      ⟨TT_NUM_ADD, [], 1⟩ ⟨TT_IND_ADD, [], 1⟩ rfl rfl rfl rfl (fun _ _ => ⟨12, rfl⟩)).imp
      (fun _ h => h.imp (fun _ h' => ⟨h'.1, h'.2.1, h'.2.2.2 (by decide)⟩))⟩

/-- C20 as stated fails: after the `A` instruction of `$5$>0|0A~W` the mask is 0xEEEF, not
0xEEEE. The `0` after `>` is itself a toggle of bit 0, which `|0` then clears while it
sets bits 4, 8 and 12, so `A` leaves register 0 selected and registers 4, 8, 12 not. -/
theorem C20_counterexample :
    lex C20_src 0 = some { cerr := [], toks := some C20_code }
    ∧ (exec_n C20_code 3 machine_init no_streams).map (fun r => r.1.mask) = some 0x0001
    ∧ (exec_n C20_code 4 machine_init no_streams).map (fun r => r.1.mask) = some 0x1110
    ∧ (exec_n C20_code 5 machine_init no_streams).map (fun r => r.1.mask) = some 0xEEEF
    ∧ (exec_n C20_code 5 machine_init no_streams).map (fun r => r.1.mask) ≠ some 0xEEEE := by
  decide

/-- C20, amended: the source `$5$>0|0A~W` lexes successfully, to seven instructions. Run
from the initial machine, the pop-atom (`>`) consumes the atom and modifies no register,
the mask being 0 at that point; after the `A` instruction the mask is 0xEEEF, which
selects every register except 4, 8 and 12; the reversed flag is on when `W` runs; and `W`
writes one line per selected register, 13 lines, after which the program has ended. -/
theorem C20_scenario :
    (∀ garbage, lex C20_src garbage = some { cerr := [], toks := some C20_code })
    ∧ (exec_n C20_code 1 machine_init no_streams).map (fun r => (r.1.mask, r.1.atoms))
        = some (0, [⟨TT_LIT_NUM, ['5'], 1⟩])
    ∧ (exec_n C20_code 2 machine_init no_streams).map (fun r => r.1.atoms) = some []
    ∧ (∀ i, (exec_n C20_code 2 machine_init no_streams).map (fun r => r.1.regs i)
          = some (machine_init.regs i))
    ∧ (exec_n C20_code 5 machine_init no_streams).map (fun r => r.1.mask) = some 0xEEEF
    ∧ (List.range 16).filter (fun i => Nat.testBit 0xEEEF i)
        = [0, 1, 2, 3, 5, 6, 7, 9, 10, 11, 13, 14, 15]
    ∧ (exec_n C20_code 6 machine_init no_streams).map
          (fun r => (r.1.rev, r.1.instr_ptr, (visited r.1).length))
        = some (true, 6, 13)
    ∧ (run C20_code 7 machine_init no_streams).map (fun r => (r.2.cout, r.1.instr_ptr))
        = some (List.replicate 13 NEWLINE, 7) := by
  refine ⟨fun _ => rfl, ?_, ?_, ?_, ?_, ?_, ?_, ?_⟩ <;> decide

/-- C21 as stated fails: the source `0"42"ow#` does not lex. The character `o` is not an
instruction: `lex` reports `unknown character!` on line 1 and returns `std::nullopt`, so
no instruction runs. -/
theorem C21_counterexample :
    lex C21_src 0 = some { cerr := [(1, "unknown character!")], toks := none }
    ∧ lex_second 'o' lex_single = none := by
  decide

/-- C21, amended: the source `0"42"ow#` fails to lex, `o` being no instruction. With the
pop-atom instruction `>` in its place the source `0"42">w#` lexes successfully, to five
instructions, and, run from the initial machine state, toggles bit 0, pushes the string
atom `42`, pops it into register 0 as the text `42`, writes exactly `42` to the output
stream via write (`w`), and converts register 0 to the integer 42 via to-int (`#`), which
ends the program. -/
theorem C21_scenario :
    (∀ garbage, lex C21_src garbage
        = some { cerr := [(1, "unknown character!")], toks := none })
    ∧ (∀ garbage, lex C21_src_pop garbage = some { cerr := [], toks := some C21_code })
    ∧ (exec_n C21_code 1 machine_init no_streams).map (fun r => r.1.mask) = some 1
    ∧ (exec_n C21_code 2 machine_init no_streams).map (fun r => (r.1.atoms, r.1.regs 0))
        = some ([⟨TT_LIT_STR, ['4', '2'], 1⟩], reg.str [])
    ∧ (exec_n C21_code 3 machine_init no_streams).map
          (fun r => (r.1.atoms, r.1.regs 0, r.1.regs 1, r.2.cout))
        = some ([], reg.str ['4', '2'], reg.str [], [])
    ∧ (exec_n C21_code 4 machine_init no_streams).map (fun r => (r.1.regs 0, r.2.cout))
        = some (reg.str ['4', '2'], ['4', '2'])
    ∧ (exec_n C21_code 5 machine_init no_streams).map (fun r => (r.1.regs 0, r.2.cout))
        = some (reg.num 42, ['4', '2'])
    ∧ (run C21_code 5 machine_init no_streams).map
          (fun r => (r.1.regs 0, r.2.cout, r.1.instr_ptr))
        = some (reg.num 42, ['4', '2'], 5) := by
  refine ⟨fun _ => rfl, fun _ => rfl, ?_, ?_, ?_, ?_, ?_, ?_⟩ <;> decide

/-- C22: the instruction fetch is always in bounds. For every instruction list of length
`n` and every machine state with instruction pointer below `n`, `exec_cycle` fetches and
returns, and afterwards the instruction pointer is at most `n`: it is the old pointer
plus one, or a jump target that was on top of the jump stack and lies in `[0, n)`. Hence
the run loop `while (instr_ptr < n) exec_cycle`, started with the pointer at most `n`
and with any jump stack, never fetches outside the instruction list, however many passes
it makes. -/
theorem C22_fetch_in_bounds (code : List token) :
    (∀ (m : machine) (io : streams), m.instr_ptr < code.length →
      ∃ r, exec_cycle m io code = some r
        ∧ (r.1.instr_ptr = m.instr_ptr + 1
          ∨ (r.1.instr_ptr < code.length
            ∧ ∃ rest, m.jumps = (r.1.instr_ptr : Int) :: rest))
        ∧ r.1.instr_ptr ≤ code.length)
    ∧ (∀ (k : Nat) (m : machine) (io : streams), m.instr_ptr ≤ code.length →
      ∃ r, run_upto code k m io = some r ∧ r.1.instr_ptr ≤ code.length) := by
  constructor
  · intro m io h
    obtain ⟨r, hr, hp⟩ := exec_cycle_ptr m io code h
    exact ⟨r, hr, hp, by rcases hp with hp | hp <;> omega⟩
  · intro k m io h
    exact run_upto_in_bounds code k m io h

set_option maxRecDepth 8192 in
/-- C22 on a program that pushes 100 onto the jump stack and executes jump-pop: at the
jump-pop with the negative target -3 on top of the jump stack, and for the whole run from
the initial machine, which ends with the instruction pointer at the length 5. -/
theorem C22_fetch_in_bounds_witness :
    C22_machine.instr_ptr < C22_code.length
    ∧ (∃ r, exec_cycle C22_machine no_streams C22_code = some r
        ∧ (r.1.instr_ptr = C22_machine.instr_ptr + 1
          ∨ (r.1.instr_ptr < C22_code.length
            ∧ ∃ rest, C22_machine.jumps = (r.1.instr_ptr : Int) :: rest))
        ∧ r.1.instr_ptr ≤ C22_code.length)
    ∧ machine_init.instr_ptr ≤ C22_code.length
    ∧ (∃ r, run_upto C22_code 10 machine_init no_streams = some r
        ∧ r.1.instr_ptr ≤ C22_code.length)
    ∧ (run_upto C22_code 10 machine_init no_streams).map
          (fun r => (r.1.instr_ptr, r.1.jumps, r.1.regs 0))
        = some (5, [], reg.num 100) :=
  ⟨by decide, (C22_fetch_in_bounds C22_code).1 C22_machine no_streams (by decide),
    by decide, (C22_fetch_in_bounds C22_code).2 10 machine_init no_streams (by decide),
    by decide⟩

end Ematrm
